import Mathlib

/-!
Verification development for the pi-memory context manager.

The definitions below are a shallow embedding of the repository source:
`src/hashing.ts` (canonical JSON serialisation and the three hash helpers),
`src/phase3-extension.ts` (`PiMemoryPhase3Extension`: file indexing and the
activate/deactivate API) and `src/context-manager.ts` (`ContextManager`:
cursor-based message consumption, turn accumulation and the auto tool-call
window).  Machine integers are modelled as `Nat` with explicit `% 2^32`
where overflow matters.  External collaborators that are not part of the
repository source (node:crypto SHA-256, the XTDB store client) are modelled
from the specification and marked as such in their doc comments.
-/

set_option maxRecDepth 16384

namespace PiMemory

/-! ### SHA-256

Modelled from the spec: `sha256(input)` in `src/hashing.ts` delegates to
node:crypto `createHash('sha256')`.  This is a direct FIPS 180-4
implementation over `Nat` byte lists with explicit `% 2^32`, producing the
64-character lowercase hex digest of the UTF-8 bytes of the input. -/

/-- 2 to the power 32, the modulus for 32-bit words. -/
def w32 : Nat := 4294967296

/-- Right rotation of a 32-bit word. -/
def rotr (n x : Nat) : Nat := ((x >>> n) ||| (x <<< (32 - n))) % w32

/-- Logical right shift. -/
def shr (n x : Nat) : Nat := x >>> n

def bsig0 (x : Nat) : Nat := (rotr 2 x) ^^^ (rotr 13 x) ^^^ (rotr 22 x)

def bsig1 (x : Nat) : Nat := (rotr 6 x) ^^^ (rotr 11 x) ^^^ (rotr 25 x)

def ssig0 (x : Nat) : Nat := (rotr 7 x) ^^^ (rotr 18 x) ^^^ (shr 3 x)

def ssig1 (x : Nat) : Nat := (rotr 17 x) ^^^ (rotr 19 x) ^^^ (shr 10 x)

def chF (x y z : Nat) : Nat := (x &&& y) ^^^ ((x ^^^ 4294967295) &&& z)

def majF (x y z : Nat) : Nat := (x &&& y) ^^^ (x &&& z) ^^^ (y &&& z)

/-- The 64 SHA-256 round constants of FIPS 180-4, written in decimal. -/
def sha256K : List Nat :=
  [1116352408, 1899447441, 3049323471, 3921009573, 961987163, 1508970993,
   2453635748, 2870763221, 3624381080, 310598401, 607225278, 1426881987,
   1925078388, 2162078206, 2614888103, 3248222580, 3835390401, 4022224774,
   264347078, 604807628, 770255983, 1249150122, 1555081692, 1996064986,
   2554220882, 2821834349, 2952996808, 3210313671, 3336571891, 3584528711,
   113926993, 338241895, 666307205, 773529912, 1294757372, 1396182291,
   1695183700, 1986661051, 2177026350, 2456956037, 2730485921, 2820302411,
   3259730800, 3345764771, 3516065817, 3600352804, 4094571909, 275423344,
   430227734, 506948616, 659060556, 883997877, 958139571, 1322822218,
   1537002063, 1747873779, 1955562222, 2024104815, 2227730452, 2361852424,
   2428436474, 2756734187, 3204031479, 3329325298]

/-- The eight starting hash words of SHA-256, written in decimal. -/
def sha256H0 : List Nat :=
  [1779033703, 3144134277, 1013904242, 2773480762,
   1359893119, 2600822924, 528734635, 1541459225]

/-- Big-endian byte list (most significant first) of a Nat, fixed width. -/
def beBytes (width n : Nat) : List Nat :=
  (List.range width).map (fun i => (n >>> (8 * (width - 1 - i))) % 256)

/-- FIPS 180-4 padding: append 0x80, zero bytes, then the 64-bit bit length. -/
def padMessage (bytes : List Nat) : List Nat :=
  let len := bytes.length
  let zeros := (64 - ((len + 9) % 64)) % 64
  bytes ++ [128] ++ List.replicate zeros 0 ++ beBytes 8 (8 * len)

/-- Split a byte list into 64-byte blocks; the fuel argument keeps the
recursion structural so the kernel can evaluate it. -/
def toBlocksF : Nat → List Nat → List (List Nat)
  | 0, _ => []
  | _, [] => []
  | fuel + 1, bytes => (bytes.take 64) :: toBlocksF fuel (bytes.drop 64)

def toBlocks (bytes : List Nat) : List (List Nat) :=
  toBlocksF bytes.length bytes

/-- Combine up to four bytes big-endian into one word. -/
def word (bs : List Nat) : Nat :=
  bs.foldl (fun a b => a * 256 + b) 0

/-- The first sixteen schedule words of a block. -/
def blockWords (block : List Nat) : List Nat :=
  (List.range 16).map (fun i => word ((block.drop (4 * i)).take 4))

/-- Extend the message schedule from 16 to 64 words. -/
def extendSchedule : Nat → List Nat → List Nat
  | 0, ws => ws
  | n + 1, ws =>
    let t := ws.length
    let wNew := (ssig1 (ws.getD (t - 2) 0) + ws.getD (t - 7) 0 +
                 ssig0 (ws.getD (t - 15) 0) + ws.getD (t - 16) 0) % w32
    extendSchedule n (ws ++ [wNew])

def schedule (block : List Nat) : List Nat :=
  extendSchedule 48 (blockWords block)

/-- The eight working registers of the compression loop. -/
structure Regs where
  a : Nat
  b : Nat
  c : Nat
  d : Nat
  e : Nat
  f : Nat
  g : Nat
  h : Nat
deriving Repr, DecidableEq

/-- One SHA-256 round. -/
def roundStep (r : Regs) (kw : Nat × Nat) : Regs :=
  let t1 := (r.h + bsig1 r.e + chF r.e r.f r.g + kw.1 + kw.2) % w32
  let t2 := (bsig0 r.a + majF r.a r.b r.c) % w32
  { a := (t1 + t2) % w32, b := r.a, c := r.b, d := r.c,
    e := (r.d + t1) % w32, f := r.e, g := r.f, h := r.g }

/-- Compress one 64-byte block into the running hash state. -/
def compress (hs : List Nat) (block : List Nat) : List Nat :=
  let ws := schedule block
  let r0 : Regs := { a := hs.getD 0 0, b := hs.getD 1 0, c := hs.getD 2 0, d := hs.getD 3 0,
                     e := hs.getD 4 0, f := hs.getD 5 0, g := hs.getD 6 0, h := hs.getD 7 0 }
  let r := (sha256K.zip ws).foldl roundStep r0
  [(hs.getD 0 0 + r.a) % w32, (hs.getD 1 0 + r.b) % w32, (hs.getD 2 0 + r.c) % w32,
   (hs.getD 3 0 + r.d) % w32, (hs.getD 4 0 + r.e) % w32, (hs.getD 5 0 + r.f) % w32,
   (hs.getD 6 0 + r.g) % w32, (hs.getD 7 0 + r.h) % w32]

/-- The eight digest words of a byte message. -/
def sha256Words (bytes : List Nat) : List Nat :=
  (toBlocks (padMessage bytes)).foldl compress sha256H0

/-- Lowercase hex digit for a value below 16. -/
def hexDigit (n : Nat) : Char :=
  if n < 10 then Char.ofNat (48 + n) else Char.ofNat (87 + n)

/-- Two lowercase hex characters of a byte. -/
def byteHex (b : Nat) : List Char := [hexDigit (b / 16), hexDigit (b % 16)]

/-- UTF-8 bytes of one character. -/
def utf8Char (c : Char) : List Nat :=
  let n := c.toNat
  if n < 128 then [n]
  else if n < 2048 then [192 ||| (n >>> 6), 128 ||| (n &&& 63)]
  else if n < 65536 then [224 ||| (n >>> 12), 128 ||| ((n >>> 6) &&& 63), 128 ||| (n &&& 63)]
  else [240 ||| (n >>> 18), 128 ||| ((n >>> 12) &&& 63), 128 ||| ((n >>> 6) &&& 63), 128 ||| (n &&& 63)]

/-- UTF-8 encoding of a string. -/
def utf8Encode (s : String) : List Nat :=
  s.toList.flatMap utf8Char

/-- Embedding of `sha256` from `src/hashing.ts`: the lowercase hex SHA-256
digest of the UTF-8 bytes of the input. -/
def sha256 (input : String) : String :=
  String.mk (((sha256Words (utf8Encode input)).flatMap (beBytes 4)).flatMap byteHex)

/-! ### JSON values and `stableStringify`

`stableStringify` in `src/hashing.ts` serialises an arbitrary JSON value:
primitives through `JSON.stringify`, arrays in order, objects with
`Object.keys(record).sort()`.  JSON values are embedded as the mutual
inductive `Jval`; JavaScript records cannot contain duplicate keys, so an
object is a key-value list, and sorting the pairs by key below coincides
with sorting `Object.keys` and indexing into the record. -/

mutual
/-- A JSON value: null, boolean, number (the code only ever serialises
integers), string, array or object. -/
inductive Jval where
  | jnull : Jval
  | jbool (b : Bool) : Jval
  | jnum (n : Int) : Jval
  | jstr (s : String) : Jval
  | jarr (xs : JvalList) : Jval
  | jobj (kvs : JvalObj) : Jval

/-- A list of JSON values (array elements). -/
inductive JvalList where
  | nil : JvalList
  | cons (v : Jval) (t : JvalList) : JvalList

/-- The field list of a JSON object, in insertion order. -/
inductive JvalObj where
  | nil : JvalObj
  | cons (k : String) (v : Jval) (t : JvalObj) : JvalObj
end

/-- Lexicographic comparison of character lists by code point, the order
`Array.prototype.sort` applies to the key strings.  (JavaScript compares
UTF-16 code units; for the keys the code serialises, which are ASCII, the
two orders agree.) -/
def charListLe : List Char → List Char → Bool
  | [], _ => true
  | _ :: _, [] => false
  | x :: xs, y :: ys => if x < y then true else if y < x then false else charListLe xs ys

/-- String comparison used for key sorting. -/
def strLe (a b : String) : Bool := charListLe a.toList b.toList

/-- JavaScript `Array.prototype.join`: elements separated by `sep`. -/
def joinSep (sep : String) : List String → String
  | [] => ""
  | [x] => x
  | x :: y :: t => x ++ sep ++ joinSep sep (y :: t)

/-- Escaping of one character inside a JSON string literal, as
`JSON.stringify` performs it. -/
def jsonEscapeChar (c : Char) : String :=
  if c = '"' then "\\\""
  else if c = '\\' then "\\\\"
  else if c = '\n' then "\\n"
  else if c = '\t' then "\\t"
  else if c = '\r' then "\\r"
  else if c = '\x08' then "\\b"
  else if c = '\x0c' then "\\f"
  else if c.toNat < 32 then
    "\\u00" ++ String.mk [hexDigit (c.toNat / 16), hexDigit (c.toNat % 16)]
  else String.singleton c

/-- `JSON.stringify` of a string: quoted, with every character escaped. -/
def jsonQuote (s : String) : String :=
  "\"" ++ joinSep "" (s.toList.map jsonEscapeChar) ++ "\""

/-- Insert a rendered key-value pair into a list sorted by key. -/
def insertPair (p : String × String) : List (String × String) → List (String × String)
  | [] => [p]
  | q :: t => if strLe p.1 q.1 then p :: q :: t else q :: insertPair p t

/-- Sort rendered key-value pairs by key (the `Object.keys(...).sort()` of
the source). -/
def sortPairs (l : List (String × String)) : List (String × String) :=
  l.foldr insertPair []

mutual
/-- Embedding of `stableStringify` from `src/hashing.ts`: primitives via
`JSON.stringify`, arrays in element order, objects with keys sorted at
every depth, no whitespace ever emitted. -/
def stableStringify : Jval → String
  | .jnull => "null"
  | .jbool true => "true"
  | .jbool false => "false"
  | .jnum n => toString n
  | .jstr s => jsonQuote s
  | .jarr xs => "[" ++ joinSep "," (arrParts xs) ++ "]"
  | .jobj kvs => "\x7b" ++ joinSep "," ((sortPairs (objParts kvs)).map Prod.snd) ++ "\x7d"
termination_by structural v => v

/-- The serialised elements of an array, in order. -/
def arrParts : JvalList → List String
  | .nil => []
  | .cons v t => stableStringify v :: arrParts t
termination_by structural l => l

/-- The key paired with its serialised `"key":value` fragment, for each
object field in insertion order. -/
def objParts : JvalObj → List (String × String)
  | .nil => []
  | .cons k v t => (k, jsonQuote k ++ ":" ++ stableStringify v) :: objParts t
termination_by structural o => o
end

/-- Build an object value from a list of fields. -/
def jO (l : List (String × Jval)) : Jval :=
  .jobj (l.foldr (fun p t => .cons p.1 p.2 t) .nil)

/-- Look up the first field with the given key. -/
def jlookup (k : String) : JvalObj → Option Jval
  | .nil => none
  | .cons k' v t => if k' = k then some v else jlookup k t

/-- The keys of an object, in insertion order. -/
def keysOf : JvalObj → List String
  | .nil => []
  | .cons k _ t => k :: keysOf t

/-! ### JavaScript Map and Set helpers

`Map` keeps insertion order; `set` on an existing key updates in place,
`delete` removes the entry.  `Set.add` appends when absent. -/

/-- Look up a key in an insertion-ordered association list. -/
def alookup {α : Type} (k : String) : List (String × α) → Option α
  | [] => none
  | (k', v) :: t => if k' = k then some v else alookup k t

/-- `Map.set`: replace in place when the key exists, else append. -/
def setEntry {α : Type} (k : String) (v : α) : List (String × α) → List (String × α)
  | [] => [(k, v)]
  | (k', v') :: t => if k' = k then (k, v) :: t else (k', v') :: setEntry k v t

/-- `Map.delete`: drop the entry with the given key. -/
def delEntry {α : Type} (k : String) : List (String × α) → List (String × α)
  | [] => []
  | (k', v') :: t => if k' = k then delEntry k t else (k', v') :: delEntry k t

/-- `Set.add`: append when absent. -/
def addSet (x : String) (l : List String) : List String :=
  if x ∈ l then l else l ++ [x]

/-- `Set.delete`: remove the element. -/
def delSet (x : String) (l : List String) : List String :=
  l.filter (fun y => y ≠ x)

/-! ### Hashing helpers of `src/hashing.ts` applied to file objects -/

/-- `provenance` of a file object (`src/types.ts`). -/
structure Provenance where
  origin : String
  generator : String
deriving Repr, DecidableEq

/-- A `FileObject` (`src/types.ts`): the document the extension writes to
the store.  `type` is always the literal `"file"`; `nickname` is never set
by `buildFileObject`, so it is omitted. -/
structure FileObject where
  id : String
  content : Option String
  path : String
  file_type : String
  char_count : Nat
  locked : Bool
  provenance : Provenance
  content_hash : String
  metadata_view_hash : String
  object_hash : String
deriving Repr, DecidableEq

/-- Embedding of `contentHash` from `src/hashing.ts`: the SHA-256 of the
content string, with null coalesced to the empty string. -/
def contentHash (content : Option String) : String :=
  sha256 (content.getD "")

/-- The `file` branch of `metadataViewPayload` from `src/hashing.ts`:
id, type, path, file type, char count and nickname joined with `|`.
`path ?? ''` never fires because `buildFileObject` always sets a path, and
`nickname` is always absent. -/
def metadataViewPayloadFile (f : FileObject) : String :=
  joinSep "|" [f.id, "file", f.path, f.file_type, toString f.char_count, ""]

/-- Embedding of `metadataViewHash` from `src/hashing.ts` at file objects. -/
def metadataViewHash (f : FileObject) : String :=
  sha256 (metadataViewPayloadFile f)

/-- The JSON value of the spread clone `{...file}` after
`delete clone.content_hash; delete clone.metadata_view_hash;
delete clone.object_hash` (the `created_at` and `updated_at` keys never
exist on a file object).  Field order is irrelevant: `stableStringify`
sorts keys. -/
def fileObjClone (f : FileObject) : Jval :=
  jO [("id", .jstr f.id),
      ("type", .jstr "file"),
      ("content", match f.content with | none => .jnull | some c => .jstr c),
      ("path", .jstr f.path),
      ("file_type", .jstr f.file_type),
      ("char_count", .jnum f.char_count),
      ("locked", .jbool f.locked),
      ("provenance", jO [("origin", .jstr f.provenance.origin),
                         ("generator", .jstr f.provenance.generator)])]

/-- Embedding of `objectHash` from `src/hashing.ts` at file objects: clone
the object, remove `content_hash`, `metadata_view_hash`, `object_hash`,
`created_at`, `updated_at`, then SHA-256 the stable serialisation. -/
def objectHash (f : FileObject) : String :=
  sha256 (stableStringify (fileObjClone f))

/-! ### The Phase 3 extension (`src/phase3-extension.ts`) -/

/-- An `ObjectState` entry of the in-memory `objects` map. -/
structure ObjState where
  id : String
  type : String
  content : Option String
  locked : Bool
deriving Repr, DecidableEq

/-- A `MetadataEntry` of the extension metadata pool; fields that a given
entry kind leaves undefined are `none`. -/
structure MetadataEntry where
  id : String
  type : String
  status : Option String
  path : Option String
  file_type : Option String
  char_count : Option Nat
  tool : Option String
deriving Repr, DecidableEq

/-- Modelled from the spec: the store client (`src/xtdb-client.ts` is not
part of the source tree).  Spec section 4.3 requires `put` keyed by the
document id followed by `awaitTx`, and `history(id)` as the ordered version
list; sections 4.4 and 7 state that a duplicate put appends a redundant
version.  The store is therefore a map from id to the append-only version
list, and `putAndWait` appends the document to the history of its id. -/
abbrev Store : Type := List (String × List FileObject)

/-- Modelled from the spec: `putAndWait` appends one version under the
document id. -/
def storePut (st : Store) (doc : FileObject) : Store :=
  match alookup doc.id st with
  | some versions => setEntry doc.id (versions ++ [doc]) st
  | none => st ++ [(doc.id, [doc])]

/-- The version history of an id, oldest first. -/
def historyOf (st : Store) (id : String) : List FileObject :=
  (alookup id st).getD []

/-- The in-memory state of `PiMemoryPhase3Extension`: the `objects` map,
metadata pool with its seen-set, active set, and the (modelled) store.
`workspaceRoot` is the constructor option used by `resolvePath`. -/
structure ExtState where
  workspaceRoot : String
  objects : List (String × ObjState)
  metadataPool : List MetadataEntry
  metadataSeen : List String
  activeSet : List String
  store : Store
deriving Repr, DecidableEq

/-- node `isAbsolute` on posix: the path starts with a slash. -/
def isAbsolutePath (p : String) : Bool := p.toList.head? = some '/'

/-- `resolvePath`: absolute paths pass through; otherwise node resolves
against the workspace root (modelled as segment concatenation, which agrees
with `path.resolve` for relative paths without dot segments). -/
def resolvePath (workspaceRoot path : String) : String :=
  if isAbsolutePath path then path else workspaceRoot ++ "/" ++ path

/-- Split a character list at every occurrence of a separator. -/
def splitOnChar (sep : Char) : List Char → List (List Char)
  | [] => [[]]
  | c :: t =>
    match splitOnChar sep t with
    | [] => [[]]
    | h :: r => if c = sep then [] :: h :: r else (c :: h) :: r

/-- The greatest index of a later-than-first dot character, `none` when the
basename has no extension (node `extname` semantics). -/
def lastDotIdx (cs : List Char) : Option Nat :=
  (List.range cs.length).foldl
    (fun acc i => if 1 ≤ i ∧ cs.getD i ' ' = '.' then some i else acc) none

/-- `fileTypeFromPath`: the lowercased `extname` without its dot, or
`text` when there is no extension.  node `extname` looks at the last path
segment and ignores a leading dot. -/
def fileTypeFromPath (path : String) : String :=
  let base := (splitOnChar '/' path.toList).getLastD []
  match lastDotIdx base with
  | none => "text"
  | some i =>
    let ext := base.drop i
    if ext = [] then "text" else String.mk ((ext.drop 1).map Char.toLower)

/-- Embedding of `buildFileObject`: assemble the document, then fill the
three hash fields in source order. -/
def buildFileObject (id absolutePath content : String) : FileObject :=
  let f0 : FileObject :=
    { id := id
      content := some content
      path := absolutePath
      file_type := fileTypeFromPath absolutePath
      char_count := content.length
      locked := false
      provenance := { origin := absolutePath, generator := "tool" }
      content_hash := ""
      metadata_view_hash := ""
      object_hash := "" }
  let f1 := { f0 with content_hash := contentHash f0.content }
  let f2 := { f1 with metadata_view_hash := metadataViewHash f1 }
  { f2 with object_hash := objectHash f2 }

/-- The result record `{ok, message, id?}` returned by `read`. -/
structure ReadResult where
  ok : Bool
  message : String
  id : Option String
deriving Repr, DecidableEq

/-- The result record `{ok, message}` of `activate` and `deactivate`. -/
structure ActResult where
  ok : Bool
  message : String
deriving Repr, DecidableEq

/-- Embedding of `PiMemoryPhase3Extension.read`: resolve the path, read the
file content (supplied here as the `content` argument, since the filesystem
is an input of the model), derive `id = file:absolutePath`, build and store
the file object, register it in the objects map, metadata pool and active
set. -/
def read (s : ExtState) (path content : String) : ExtState × ReadResult :=
  let absolutePath := resolvePath s.workspaceRoot path
  let id := "file:" ++ absolutePath
  let file := buildFileObject id absolutePath content
  let st := storePut s.store file
  let objects := setEntry id { id := id, type := "file", content := some content, locked := false }
    s.objects
  let (seen, pool) :=
    if id ∈ s.metadataSeen then (s.metadataSeen, s.metadataPool)
    else (s.metadataSeen ++ [id],
          s.metadataPool ++ [{ id := id, type := "file", status := none,
                               path := some absolutePath, file_type := some file.file_type,
                               char_count := some file.char_count, tool := none }])
  ({ s with objects := objects, metadataPool := pool, metadataSeen := seen,
            activeSet := addSet id s.activeSet, store := st },
   { ok := true, message := "read ok id=" ++ id, id := some id })

/-- Embedding of `indexFileFromDisk`: like `read` but without touching the
active set and without a result record. -/
def indexFileFromDisk (s : ExtState) (absolutePath content : String) : ExtState :=
  let id := "file:" ++ absolutePath
  let file := buildFileObject id absolutePath content
  let st := storePut s.store file
  let objects := setEntry id { id := id, type := "file", content := some content, locked := false }
    s.objects
  let (seen, pool) :=
    if id ∈ s.metadataSeen then (s.metadataSeen, s.metadataPool)
    else (s.metadataSeen ++ [id],
          s.metadataPool ++ [{ id := id, type := "file", status := none,
                               path := some absolutePath, file_type := some file.file_type,
                               char_count := some file.char_count, tool := none }])
  { s with objects := objects, metadataPool := pool, metadataSeen := seen, store := st }

/-- Embedding of `indexDiscoveredPaths`: for each unseen path, store a stub
file object with null content and register it without activating it. -/
def indexDiscoveredPaths (s : ExtState) (paths : List String) : ExtState :=
  paths.foldl
    (fun s rawPath =>
      let absolutePath := resolvePath s.workspaceRoot rawPath
      let id := "file:" ++ absolutePath
      if id ∈ s.metadataSeen then s
      else
        let fileType := fileTypeFromPath absolutePath
        let f0 : FileObject :=
          { id := id, content := none, path := absolutePath, file_type := fileType,
            char_count := 0, locked := false,
            provenance := { origin := absolutePath, generator := "tool" },
            content_hash := contentHash none, metadata_view_hash := "", object_hash := "" }
        let f1 := { f0 with metadata_view_hash := metadataViewHash f0 }
        let file := { f1 with object_hash := objectHash f1 }
        { s with store := storePut s.store file,
                 objects := setEntry id { id := id, type := "file", content := none, locked := false }
                   s.objects,
                 metadataSeen := s.metadataSeen ++ [id],
                 metadataPool := s.metadataPool ++
                   [{ id := id, type := "file", status := none, path := some absolutePath,
                      file_type := some fileType, char_count := some 0, tool := none }] })
    s

/-- Embedding of `PiMemoryPhase3Extension.activate`. -/
def activate (s : ExtState) (id : String) : ExtState × ActResult :=
  match alookup id s.objects with
  | none => (s, { ok := false, message := "Object not found: " ++ id })
  | some object =>
    match object.content with
    | none => (s, { ok := false, message := "Content unavailable (non-text file)" })
    | some _ => ({ s with activeSet := addSet id s.activeSet },
                 { ok := true, message := "activated " ++ id })

/-- Embedding of `PiMemoryPhase3Extension.deactivate`. -/
def deactivate (s : ExtState) (id : String) : ExtState × ActResult :=
  match alookup id s.objects with
  | none => (s, { ok := false, message := "Object not found: " ++ id })
  | some object =>
    if object.locked then (s, { ok := false, message := "Object is locked: " ++ id })
    else ({ s with activeSet := delSet id s.activeSet },
          { ok := true, message := "deactivated " ++ id })

/-- The constructor state of `PiMemoryPhase3Extension`: the chat and system
prompt objects exist from the start and are locked. -/
def extInit (sessionId workspaceRoot : String) (systemPrompt : Option String) : ExtState :=
  let chatId := "chat:" ++ sessionId
  let spId := "system_prompt:" ++ sessionId
  { workspaceRoot := workspaceRoot
    objects := [(chatId, { id := chatId, type := "chat", content := some "", locked := true }),
                (spId, { id := spId, type := "system_prompt",
                         content := some (systemPrompt.getD ""), locked := true })]
    metadataPool := []
    metadataSeen := []
    activeSet := []
    store := [] }

/-! ### The context manager (`src/context-manager.ts`) -/

/-- A content part of a harness message: text, or a tool call reference. -/
inductive ContentPart where
  | text (t : String) : ContentPart
  | toolCall (toolCallId toolName : String) : ContentPart
deriving Repr, DecidableEq

/-- User message content: a plain string or a part list. -/
inductive UContent where
  | str (s : String) : UContent
  | parts (l : List ContentPart) : UContent
deriving Repr, DecidableEq

/-- A message of the harness-supplied stream. -/
inductive HarnessMessage where
  | user (content : UContent) (timestamp : Nat) : HarnessMessage
  | assistant (content : List ContentPart) (api provider model : Option String)
      (stopReason : Option String) (timestamp : Nat) : HarnessMessage
  | toolResult (toolCallId toolName : String) (content : List ContentPart)
      (isError : Bool) (timestamp : Nat) : HarnessMessage
deriving Repr, DecidableEq

/-- The `assistant_meta` record of a chat turn. -/
structure AssistantMeta where
  api : String
  provider : String
  model : String
  stopReason : Option String
  timestamp : Nat
deriving Repr, DecidableEq

/-- A `ChatTurn`. -/
structure ChatTurn where
  user : UContent
  assistant : List ContentPart
  toolcall_ids : List String
  assistant_meta : AssistantMeta
deriving Repr, DecidableEq

/-- A `ToolcallState` entry of the `toolcalls` map. -/
structure ToolcallState where
  id : String
  tool : String
  status : String
  content : String
  turnIndex : Nat
deriving Repr, DecidableEq

/-- A `MetadataEntry` of the context manager pool. -/
structure CMetaEntry where
  id : String
  tool : String
  status : String
deriving Repr, DecidableEq

/-- The fields of `ContextManager` that the per-message loop body touches,
together with the constructor options (which are immutable). -/
structure CMCore where
  metadataPool : List CMetaEntry
  metadataSeen : List String
  chatTurns : List ChatTurn
  toolcalls : List (String × ToolcallState)
  activeContent : List (String × String)
  pinned : List String
  locked : List String
  chatObjectId : Option String
  recentToolcallsPerTurn : Option Nat
  recentTurnsWindow : Option Nat
deriving Repr, DecidableEq

/-- The full `ContextManager` state: the core fields plus the consumption
cursor and the identity of the last message array (modelled as a numeric
reference token, standing for JavaScript object identity). -/
structure CMState where
  core : CMCore
  cursor : Nat
  lastRef : Option Nat
deriving Repr, DecidableEq

/-- `extractText`: keep the text parts and join them with newlines. -/
def extractTextParts (parts : List ContentPart) : String :=
  joinSep "\n"
    (parts.filterMap (fun p => match p with | .text t => some t | _ => none))

/-- `extractText` on user content. -/
def extractText : UContent → String
  | .str s => s
  | .parts l => extractTextParts l

/-- The turn `getOrCreateCurrentTurn` pushes when no turn exists yet. -/
def emptyTurn (timestamp : Nat) : ChatTurn :=
  { user := .str ""
    assistant := []
    toolcall_ids := []
    assistant_meta := { api := "", provider := "", model := "", stopReason := none,
                        timestamp := timestamp } }

/-- Replace the last element of a list. -/
def modifyLast {α : Type} (f : α → α) : List α → List α
  | [] => []
  | [x] => [f x]
  | x :: y :: t => x :: modifyLast f (y :: t)

/-- `ids.slice(-n)`: the last `n` elements, or the whole array when
`n = 0` (JavaScript `slice(-0)` is `slice(0)`). -/
def sliceLast {α : Type} (n : Nat) (l : List α) : List α :=
  if n = 0 then l else l.drop (l.length - n)

/-- The keep set of `applyAutoToolcallWindow`: walk the last
`recentTurnsWindow` turns; the final turn contributes its last
`recentToolcallsPerTurn` tool-call ids, every earlier turn in the window
contributes all of its ids. -/
def keepSetOf (s : CMCore) : List String :=
  let perTurn := s.recentToolcallsPerTurn.getD 5
  let turnsBack := s.recentTurnsWindow.getD 3
  let len := s.chatTurns.length
  ((List.range len).drop (len - turnsBack)).foldl
    (fun keep i =>
      let ids := (s.chatTurns.getD i (emptyTurn 0)).toolcall_ids
      let tail := if i = len - 1 then sliceLast perTurn ids else ids
      tail.foldl (fun k id => addSet id k) keep)
    []

/-- The body of the `applyAutoToolcallWindow` loop for one `toolcalls`
entry: kept tool-calls with non-empty content are (re)inserted into
`activeContent`, non-pinned tool-calls outside the keep set are deleted
from it. -/
def windowStep (keep pinned : List String) (ac : List (String × String))
    (p : String × ToolcallState) : List (String × String) :=
  if p.1 ∈ keep then (if p.2.content ≠ "" then setEntry p.1 p.2.content ac else ac)
  else if p.1 ∈ pinned then ac
  else delEntry p.1 ac

/-- Embedding of `ContextManager.applyAutoToolcallWindow`: compute the keep
set, then fold the window step over the `toolcalls` map. -/
def applyAutoToolcallWindow (s : CMCore) : CMCore :=
  let keep := keepSetOf s
  { s with activeContent := s.toolcalls.foldl (windowStep keep s.pinned) s.activeContent }

/-- Embedding of `ContextManager.activate`: unknown ids fail; a tool-call
whose content string is empty (falsy) fails as unavailable; otherwise the
content is loaded into `activeContent`. -/
def cmActivate (s : CMCore) (id : String) : CMCore × ActResult :=
  match alookup id s.toolcalls with
  | none => (s, { ok := false, message := "Object not found: " ++ id })
  | some toolcall =>
    if toolcall.content = "" then
      (s, { ok := false, message := "Content unavailable (non-text file)" })
    else ({ s with activeContent := setEntry id toolcall.content s.activeContent },
          { ok := true, message := "Activated " ++ id })

/-- Embedding of `ContextManager.deactivate`. -/
def cmDeactivate (s : CMCore) (id : String) : CMCore × ActResult :=
  if id ∈ s.locked then (s, { ok := false, message := "Object is locked: " ++ id })
  else ({ s with activeContent := delEntry id s.activeContent },
        { ok := true, message := "Deactivated " ++ id })

/-- Embedding of `ContextManager.pin`. -/
def cmPin (s : CMCore) (id : String) : CMCore × ActResult :=
  ({ s with pinned := addSet id s.pinned }, { ok := true, message := "Pinned " ++ id })

/-- The `toolResult` branch of the `processMessages` loop up to and
including the `activate` call: append the id to the current turn, record
the tool-call state, extend the metadata pool on first sight, then
activate the new id. -/
def absorbToolResult (s : CMCore) (toolCallId toolName : String)
    (content : List ContentPart) (isError : Bool) (timestamp : Nat) : CMCore :=
  let turnIndex := if 0 < s.chatTurns.length then s.chatTurns.length - 1 else 0
  let turns0 := if s.chatTurns.isEmpty then [emptyTurn timestamp] else s.chatTurns
  let turns := modifyLast (fun t => { t with toolcall_ids := t.toolcall_ids ++ [toolCallId] })
    turns0
  let text := extractTextParts content
  let toolcall : ToolcallState :=
    { id := toolCallId, tool := toolName, status := if isError then "fail" else "ok",
      content := text, turnIndex := turnIndex }
  let s1 : CMCore := { s with chatTurns := turns,
                              toolcalls := setEntry toolCallId toolcall s.toolcalls }
  let s2 : CMCore :=
    if toolCallId ∈ s1.metadataSeen then s1
    else { s1 with metadataSeen := s1.metadataSeen ++ [toolCallId],
                   metadataPool := s1.metadataPool ++
                     [{ id := toolcall.id, tool := toolcall.tool, status := toolcall.status }] }
  (cmActivate s2 toolCallId).1

/-- The body of the `processMessages` loop for one message; a `toolResult`
is absorbed and then the auto tool-call window runs. -/
def stepMessage (s : CMCore) (m : HarnessMessage) : CMCore :=
  match m with
  | .user content timestamp =>
    { s with chatTurns := s.chatTurns ++
        [{ user := content, assistant := [], toolcall_ids := [],
           assistant_meta := { api := "", provider := "", model := "", stopReason := none,
                               timestamp := timestamp } }] }
  | .assistant content api provider model stopReason timestamp =>
    let turns := if s.chatTurns.isEmpty then [emptyTurn timestamp] else s.chatTurns
    let turns' := modifyLast
      (fun t => { t with assistant := content,
                         assistant_meta := { api := api.getD "", provider := provider.getD "",
                                             model := model.getD "", stopReason := stopReason,
                                             timestamp := timestamp } }) turns
    { s with chatTurns := turns' }
  | .toolResult toolCallId toolName content isError timestamp =>
    applyAutoToolcallWindow (absorbToolResult s toolCallId toolName content isError timestamp)

/-- Embedding of `ContextManager.processMessages`: when a previous array
reference exists and either the identity changed or the array shrank below
the cursor, reset the cursor and return; otherwise fold the loop body over
the slice from the cursor and advance it. -/
def processMessages (s : CMState) (ref : Nat) (msgs : List HarnessMessage) : CMState :=
  if s.lastRef.isSome ∧ (s.lastRef ≠ some ref ∨ msgs.length < s.cursor) then
    { s with cursor := msgs.length, lastRef := some ref }
  else
    { core := (msgs.drop s.cursor).foldl stepMessage s.core,
      cursor := msgs.length, lastRef := some ref }

/-- The constructor state of `ContextManager`. -/
def cmInit (chatObjectId : Option String) (recentToolcallsPerTurn recentTurnsWindow : Option Nat) :
    CMState :=
  { core := { metadataPool := [], metadataSeen := [], chatTurns := [], toolcalls := [],
              activeContent := [], pinned := [],
              locked := [chatObjectId.getD "chat"],
              chatObjectId := chatObjectId,
              recentToolcallsPerTurn := recentToolcallsPerTurn,
              recentTurnsWindow := recentTurnsWindow }
    cursor := 0
    lastRef := none }

/-! ### Definitions following the words of the specification

These are refinement comparanda, written from the spec text rather than
from the source, to settle whether the source computes what the spec
claims. -/

/-- The filesystem source binding of the spec:
`{"type":"filesystem","filesystemId":<hex>,"path":<absolute canonical path>}`. -/
structure FsSource where
  filesystemId : String
  path : String
deriving Repr, DecidableEq

/-- Modelled from the spec, for comparison with the source id scheme:
`id = identity_hash = SHA-256(stableJSON({type, source}))` for sourced
objects, the source binding serialised as the tagged filesystem record. -/
def specIdentityHash (type : String) (source : FsSource) : String :=
  sha256 (stableStringify
    (jO [("type", .jstr type),
         ("source", jO [("type", .jstr "filesystem"),
                        ("filesystemId", .jstr source.filesystemId),
                        ("path", .jstr source.path)])]))

/-- Modelled from the spec, for comparison with `contentHash` of the
source: clone the mutable payload, remove exactly the keys `source_hash`
and `content_hash`, canonicalise and SHA-256.  The mutable payload of a
file is `content`, `file_type`, `char_count` (plus the two removed keys;
a file document of this code has no `source_hash`). -/
def specContentHash (f : FileObject) : String :=
  sha256 (stableStringify
    (jO [("content", match f.content with | none => .jnull | some c => .jstr c),
         ("file_type", .jstr f.file_type),
         ("char_count", .jnum f.char_count)]))

/-- Modelled from the claim, for comparison with `keepSetOf` of the
source: the union of the last `recentToolcallsPerTurn` tool-call ids from
each of the last `recentTurnsWindow` turns. -/
def specKeepSet (s : CMCore) : List String :=
  let perTurn := s.recentToolcallsPerTurn.getD 5
  let turnsBack := s.recentTurnsWindow.getD 3
  (s.chatTurns.drop (s.chatTurns.length - turnsBack)).foldl
    (fun keep t => (sliceLast perTurn t.toolcall_ids).foldl (fun k id => addSet id k) keep)
    []

/-! ### Equality of JSON values up to key order, and whitespace freedom -/

/-- The key order of the pair sort. -/
def keyLe (p q : String × String) : Prop := strLe p.1 q.1 = true

/-- The fields of an object as a pair list. -/
def entriesOf : JvalObj → List (String × Jval)
  | .nil => []
  | .cons k v t => (k, v) :: entriesOf t

/-- The rendered `"key":value` fragment of one field. -/
def renderField (k : String) (v : Jval) : String :=
  jsonQuote k ++ ":" ++ stableStringify v

mutual
/-- JSON value equality up to reordering of object keys: primitives equal,
arrays pointwise related in order, objects with duplicate-free permuted
keys and related values at every key. -/
inductive JEquiv : Jval → Jval → Prop where
  | jnull : JEquiv .jnull .jnull
  | jbool (b : Bool) : JEquiv (.jbool b) (.jbool b)
  | jnum (n : Int) : JEquiv (.jnum n) (.jnum n)
  | jstr (s : String) : JEquiv (.jstr s) (.jstr s)
  | jarr {xs ys : JvalList} : JEquivL xs ys → JEquiv (.jarr xs) (.jarr ys)
  | jobj {a b : JvalObj} :
      (keysOf a).Nodup → (keysOf a).Perm (keysOf b) →
      (∀ k v1 v2, jlookup k a = some v1 → jlookup k b = some v2 → JEquiv v1 v2) →
      JEquiv (.jobj a) (.jobj b)

/-- Pointwise `JEquiv` on value lists. -/
inductive JEquivL : JvalList → JvalList → Prop where
  | nil : JEquivL .nil .nil
  | cons {x y : Jval} {t1 t2 : JvalList} :
      JEquiv x y → JEquivL t1 t2 → JEquivL (.cons x t1) (.cons y t2)
end

mutual
/-- No string or key inside the value contains a whitespace character. -/
def noWS : Jval → Bool
  | .jnull => true
  | .jbool _ => true
  | .jnum _ => true
  | .jstr s => s.toList.all (fun c => !c.isWhitespace)
  | .jarr xs => noWSL xs
  | .jobj kvs => noWSO kvs
termination_by structural v => v

def noWSL : JvalList → Bool
  | .nil => true
  | .cons v t => noWS v && noWSL t
termination_by structural l => l

def noWSO : JvalObj → Bool
  | .nil => true
  | .cons k v t => (k.toList.all (fun c => !c.isWhitespace)) && noWS v && noWSO t
termination_by structural o => o
end

/-- An object with its two keys one way round. -/
def exObjA : Jval := .jobj (.cons "b" (.jnum 1) (.cons "a" (.jstr "x") .nil))

/-- The same object fields in the other insertion order. -/
def exObjB : Jval := .jobj (.cons "a" (.jstr "x") (.cons "b" (.jnum 1) .nil))

/-! ### Concrete states used by witnesses and counterexamples -/

/-- The state with one discovered (stub) file, reached through the public
`wrappedLs` path discovery pipeline. -/
def stubState : ExtState :=
  indexDiscoveredPaths (extInit "s1" "/w" none) ["/a.bin"]

/-- A two-message harness log used by the C5 witness. -/
def twoMsgs : List HarnessMessage :=
  [.user (.str "hello") 0, .toolResult "t1" "bash" [.text "out"] false 1]

/-- C4, counterexample messages: one turn with six tool results, a second
turn with one more.  With the default window parameters (five per turn,
three turns) the claim predicts that `t1` (not among the last five of its
turn) leaves the active set when `t7` is absorbed. -/
def windowMsgs : List HarnessMessage :=
  [.user (.str "u1") 0,
   .toolResult "t1" "bash" [.text "c1"] false 1,
   .toolResult "t2" "bash" [.text "c2"] false 2,
   .toolResult "t3" "bash" [.text "c3"] false 3,
   .toolResult "t4" "bash" [.text "c4"] false 4,
   .toolResult "t5" "bash" [.text "c5"] false 5,
   .toolResult "t6" "bash" [.text "c6"] false 6,
   .user (.str "u2") 7,
   .toolResult "t7" "bash" [.text "c7"] false 8]

/-- The manager state after consuming the C4 counterexample messages with
default options. -/
def windowFin : CMState := processMessages (cmInit none none none) 1 windowMsgs

/-- The state after one turn with one tool result, the base of the C10
witness scenario. -/
def reactBase : CMCore :=
  (processMessages (cmInit none none none) 1
    [.user (.str "q") 0, .toolResult "t1" "bash" [.text "c1"] false 1]).core

/-! ### Association list and set lemmas -/

/-- FIPS 180-4 test vector, validating the SHA-256 model. -/
theorem sha256_test_vector :
    sha256 "abc" = "ba7816bf8f01cfea414140de5dae2223b00361a396177a9cb410ff61f20015ad" := by
  decide

theorem alookup_setEntry_self {α : Type} (k : String) (v : α) (l : List (String × α)) :
    alookup k (setEntry k v l) = some v := by
  induction l with
  | nil => simp [setEntry, alookup]
  | cons p t ih =>
    obtain ⟨pk, pv⟩ := p
    by_cases h : pk = k
    · simp [setEntry, alookup, h]
    · simp [setEntry, alookup, h, ih]

theorem alookup_setEntry_ne {α : Type} {k' k : String} (v : α) (l : List (String × α))
    (h : k' ≠ k) : alookup k (setEntry k' v l) = alookup k l := by
  induction l with
  | nil => simp [setEntry, alookup, h]
  | cons p t ih =>
    obtain ⟨pk, pv⟩ := p
    by_cases hp : pk = k'
    · subst hp
      simp [setEntry, alookup, h]
    · by_cases hk : pk = k
      · subst hk
        simp [setEntry, alookup, hp]
      · simp [setEntry, alookup, hp, hk, ih]

theorem alookup_delEntry_self {α : Type} (k : String) (l : List (String × α)) :
    alookup k (delEntry k l) = none := by
  induction l with
  | nil => simp [delEntry, alookup]
  | cons p t ih =>
    obtain ⟨pk, pv⟩ := p
    by_cases h : pk = k
    · simpa [delEntry, h] using ih
    · simp [delEntry, alookup, h, ih]

theorem alookup_delEntry_ne {α : Type} {k' k : String} (l : List (String × α))
    (h : k' ≠ k) : alookup k (delEntry k' l) = alookup k l := by
  induction l with
  | nil => simp [delEntry, alookup]
  | cons p t ih =>
    obtain ⟨pk, pv⟩ := p
    by_cases hp : pk = k'
    · subst hp
      simp [delEntry, alookup, h, ih]
    · by_cases hk : pk = k
      · subst hk
        simp [delEntry, alookup, hp]
      · simp [delEntry, alookup, hp, hk, ih]

theorem alookup_append {α : Type} (k : String) (l1 l2 : List (String × α)) :
    alookup k (l1 ++ l2) =
      (match alookup k l1 with | some v => some v | none => alookup k l2) := by
  induction l1 with
  | nil => simp [alookup]
  | cons p t ih =>
    obtain ⟨pk, pv⟩ := p
    by_cases h : pk = k
    · simp [alookup, h]
    · simp [alookup, h, ih]

theorem mem_delSet {x y : String} {l : List String} :
    x ∈ delSet y l ↔ x ∈ l ∧ x ≠ y := by
  simp [delSet, List.mem_filter]

theorem not_mem_delSet_self (x : String) (l : List String) : x ∉ delSet x l := by
  simp [mem_delSet]

theorem historyOf_storePut_self (st : Store) (doc : FileObject) :
    historyOf (storePut st doc) doc.id = historyOf st doc.id ++ [doc] := by
  unfold storePut historyOf
  cases h : alookup doc.id st with
  | none =>
    simp [alookup_append, h, alookup]
  | some versions =>
    simp [alookup_setEntry_self, h]

theorem historyOf_storePut_ne (st : Store) (doc : FileObject) (id : String)
    (h : doc.id ≠ id) : historyOf (storePut st doc) id = historyOf st id := by
  unfold storePut historyOf
  cases hl : alookup doc.id st with
  | none =>
    simp [alookup_append, h]
    cases alookup id st <;> simp [alookup, h]
  | some versions =>
    simp [alookup_setEntry_ne _ _ h]

/-! ### Claim C1 -/

/-- The id of a stored file object, as the source computes it. -/
theorem buildFileObject_id (id p c : String) : (buildFileObject id p c).id = id := rfl

/-- No read result message collides with a literal `unchanged` report. -/
theorem read_message_ne_unchanged (y : String) : "read ok id=" ++ y ≠ "unchanged" := by
  intro h
  have := congrArg (fun s => s.data.head?) h
  simp [String.data_append] at this

/-- C1, counterexample: the claim says the id under which a read file is
stored equals `SHA-256(stableJSON({type, source}))`.  Reading
`/home/u/a.ts` (the binding of spec section 8, scenario 1) stores the
object under `file:/home/u/a.ts`, an 18-character string that is not the
64-character identity hash of that binding. -/
theorem read_id_not_identity_hash :
    (read (extInit "s1" "/w" none) "/home/u/a.ts" "console.log(1);").2.id =
      some "file:/home/u/a.ts" ∧
    "file:/home/u/a.ts" ≠ specIdentityHash "file" ⟨"FS1", "/home/u/a.ts"⟩ ∧
    (specIdentityHash "file" ⟨"FS1", "/home/u/a.ts"⟩).length = 64 ∧
    ("file:/home/u/a.ts" : String).length = 17 := by
  refine ⟨by decide, by decide, by decide, by decide⟩

/-- C1 (amended): the id under which a file indexed through the public
read/index operations (`read`, `indexFileFromDisk`) is stored is the tag
`file:` followed by the resolved absolute path, in the objects map and in
the store history alike; consequently any two clients indexing the same
absolute path obtain the same object id. -/
theorem read_id_scheme (s t : ExtState) (path c c' : String)
    (h : isAbsolutePath path = true) :
    (read s path c).2.id = some ("file:" ++ path) ∧
    alookup ("file:" ++ path) (read s path c).1.objects =
      some { id := "file:" ++ path, type := "file", content := some c, locked := false } ∧
    historyOf (read s path c).1.store ("file:" ++ path) =
      historyOf s.store ("file:" ++ path) ++ [buildFileObject ("file:" ++ path) path c] ∧
    alookup ("file:" ++ path) (indexFileFromDisk s path c).objects =
      some { id := "file:" ++ path, type := "file", content := some c, locked := false } ∧
    (read s path c).2.id = (read t path c').2.id := by
  have hres : resolvePath s.workspaceRoot path = path := by simp [resolvePath, h]
  have hres' : resolvePath t.workspaceRoot path = path := by simp [resolvePath, h]
  refine ⟨?_, ?_, ?_, ?_, ?_⟩
  · simp [read, hres]
  · simp [read, hres, alookup_setEntry_self]
  · simpa [read, hres] using
      historyOf_storePut_self s.store (buildFileObject ("file:" ++ path) path c)
  · simp [indexFileFromDisk, alookup_setEntry_self]
  · simp [read, hres, hres']

/-- C1, witness for the amended theorem at a concrete path. -/
theorem read_id_scheme_witness :
    isAbsolutePath "/a.ts" = true ∧
    (read (extInit "s1" "/w" none) "/a.ts" "x").2.id = some "file:/a.ts" := by
  refine ⟨by decide, ?_⟩
  exact (read_id_scheme (extInit "s1" "/w" none) (extInit "s2" "/w" none) "/a.ts" "x" "x"
    (by decide)).1

/-! ### Claim C2 -/

/-- C2, counterexample: reading the same path with the same bytes twice is
claimed to make the second call an `unchanged` no-op that appends no
version.  In the code the second call reports `read ok` again and the
history of the id grows from one version to two. -/
theorem reindex_same_bytes_not_noop :
    (read (read (extInit "s1" "/w" none) "/a.ts" "x").1 "/a.ts" "x").2.message =
      "read ok id=file:/a.ts" ∧
    "read ok id=file:/a.ts" ≠ "unchanged" ∧
    (historyOf (read (extInit "s1" "/w" none) "/a.ts" "x").1.store "file:/a.ts").length = 1 ∧
    (historyOf (read (read (extInit "s1" "/w" none) "/a.ts" "x").1 "/a.ts" "x").1.store
      "file:/a.ts").length = 2 := by
  refine ⟨by decide, by decide, by decide, by decide⟩

/-- C2 (amended): re-indexing the exact same source bytes is not detected:
the second call reports `read ok` again (never `unchanged`) and appends one
more version to the store history, a harmless duplicate identical to the
version the first call wrote. -/
theorem read_reindex_appends_duplicate (s : ExtState) (path c : String)
    (h : isAbsolutePath path = true) :
    (read (read s path c).1 path c).2.message = "read ok id=" ++ ("file:" ++ path) ∧
    (read (read s path c).1 path c).2.message ≠ "unchanged" ∧
    historyOf (read (read s path c).1 path c).1.store ("file:" ++ path) =
      historyOf s.store ("file:" ++ path) ++
        [buildFileObject ("file:" ++ path) path c, buildFileObject ("file:" ++ path) path c] := by
  have hres : ∀ u : ExtState, resolvePath u.workspaceRoot path = path := by
    intro u
    simp [resolvePath, h]
  refine ⟨by simp [read, hres], ?_, ?_⟩
  · rw [show (read (read s path c).1 path c).2.message = "read ok id=" ++ ("file:" ++ path) by
      simp [read, hres]]
    exact read_message_ne_unchanged _
  · have e1 := historyOf_storePut_self s.store (buildFileObject ("file:" ++ path) path c)
    have e2 := historyOf_storePut_self (storePut s.store (buildFileObject ("file:" ++ path) path c))
      (buildFileObject ("file:" ++ path) path c)
    rw [show (buildFileObject ("file:" ++ path) path c).id = "file:" ++ path from rfl] at e1 e2
    have hst2 : (read (read s path c).1 path c).1.store =
        storePut (storePut s.store (buildFileObject ("file:" ++ path) path c))
          (buildFileObject ("file:" ++ path) path c) := by
      simp [read, hres]
    rw [hst2, e2, e1]
    simp

/-- C2, witness for the amended theorem at a concrete path. -/
theorem read_reindex_appends_duplicate_witness :
    isAbsolutePath "/b.ts" = true ∧
    (read (read (extInit "s1" "/w" none) "/b.ts" "y").1 "/b.ts" "y").2.message =
      "read ok id=file:/b.ts" := by
  refine ⟨by decide, ?_⟩
  exact (read_reindex_appends_duplicate (extInit "s1" "/w" none) "/b.ts" "y" (by decide)).1

/-! ### Claim C3 -/

/-- C3, counterexample: `contentHash` is claimed to hash the whole mutable
payload minus the keys `source_hash` and `content_hash`, so that
`file_type` affects the result.  Two file objects built from `/a.ts` and
`/a.md` with the same one-character content get the same `content_hash`
from the code, while the claimed computation distinguishes them; the code
hash also differs from the claimed computation on the first object. -/
theorem contentHash_ignores_file_type :
    (buildFileObject "file:/a.ts" "/a.ts" "x").content_hash =
      (buildFileObject "file:/a.md" "/a.md" "x").content_hash ∧
    (buildFileObject "file:/a.ts" "/a.ts" "x").file_type ≠
      (buildFileObject "file:/a.md" "/a.md" "x").file_type ∧
    (buildFileObject "file:/a.ts" "/a.ts" "x").content =
      (buildFileObject "file:/a.md" "/a.md" "x").content ∧
    (buildFileObject "file:/a.ts" "/a.ts" "x").char_count =
      (buildFileObject "file:/a.md" "/a.md" "x").char_count ∧
    specContentHash (buildFileObject "file:/a.ts" "/a.ts" "x") ≠
      specContentHash (buildFileObject "file:/a.md" "/a.md" "x") ∧
    (buildFileObject "file:/a.ts" "/a.ts" "x").content_hash ≠
      specContentHash (buildFileObject "file:/a.ts" "/a.ts" "x") := by
  refine ⟨by decide, by decide, by decide, by decide, by decide, by decide⟩

/-- C3 (amended): `contentHash` hashes the content string alone, with null
coalesced to the empty string; no other payload field affects it.  The
clone-and-remove-keys computation in `src/hashing.ts` is `objectHash`,
which deletes the keys `content_hash`, `metadata_view_hash`, `object_hash`,
`created_at` and `updated_at` from a spread clone (not `source_hash`, a key
these documents do not carry), leaving the argument object unchanged. -/
theorem contentHash_is_content_only :
    (∀ c : Option String, contentHash c = sha256 (c.getD "")) ∧
    (∀ f g : FileObject, f.content = g.content → contentHash f.content = contentHash g.content) ∧
    (∀ (f : FileObject) (ch mvh oh : String),
      objectHash { f with content_hash := ch, metadata_view_hash := mvh, object_hash := oh } =
        objectHash f) := by
  refine ⟨fun c => rfl, fun f g h => by rw [h], fun f ch mvh oh => rfl⟩

/-- C3, witness for the amended theorem at concrete inputs. -/
theorem contentHash_is_content_only_witness :
    contentHash (some "x") = sha256 "x" ∧
    objectHash
      { (buildFileObject "file:/a.ts" "/a.ts" "x") with
        content_hash := "zz"
        metadata_view_hash := "zz"
        object_hash := "zz" } =
      objectHash (buildFileObject "file:/a.ts" "/a.ts" "x") := by
  exact ⟨contentHash_is_content_only.1 (some "x"),
    contentHash_is_content_only.2.2 (buildFileObject "file:/a.ts" "/a.ts" "x") "zz" "zz" "zz"⟩

/-! ### Claim C6 -/

/-- C6, counterexample: activating a stub (null content) does fail with no
state change, but the message is `Content unavailable (non-text file)`,
not the claimed `Content unavailable`. -/
theorem activate_null_message_differs :
    alookup "file:/a.bin" stubState.objects =
      some { id := "file:/a.bin", type := "file", content := none, locked := false } ∧
    activate stubState "file:/a.bin" =
      (stubState, { ok := false, message := "Content unavailable (non-text file)" }) ∧
    "Content unavailable (non-text file)" ≠ "Content unavailable" := by
  refine ⟨by decide, by decide, by decide⟩

/-- C6 (amended): for every known object with null content, `activate`
returns `{ok:false, message:"Content unavailable (non-text file)"}` and
changes no state; for every known object with non-null content (locked or
not), `activate` succeeds and adds the id to the active set, leaving all
other state unchanged. -/
theorem activate_contract (s : ExtState) (id : String) (obj : ObjState)
    (hobj : alookup id s.objects = some obj) :
    (obj.content = none →
      activate s id = (s, { ok := false, message := "Content unavailable (non-text file)" })) ∧
    (∀ c, obj.content = some c →
      activate s id = ({ s with activeSet := addSet id s.activeSet },
                       { ok := true, message := "activated " ++ id })) := by
  constructor
  · intro hc
    simp [activate, hobj, hc]
  · intro c hc
    simp [activate, hobj, hc]

/-- C6, witness: the amended contract applied to the stub state (null
content) and to a state holding a read file (non-null content). -/
theorem activate_contract_witness :
    activate stubState "file:/a.bin" =
      (stubState, { ok := false, message := "Content unavailable (non-text file)" }) ∧
    activate (read stubState "/c.ts" "z").1 "file:/c.ts" =
      ({ (read stubState "/c.ts" "z").1 with
          activeSet := addSet "file:/c.ts" (read stubState "/c.ts" "z").1.activeSet },
       { ok := true, message := "activated file:/c.ts" }) := by
  constructor
  · exact (activate_contract stubState "file:/a.bin"
      { id := "file:/a.bin", type := "file", content := none, locked := false }
      (by decide)).1 rfl
  · exact (activate_contract (read stubState "/c.ts" "z").1 "file:/c.ts"
      { id := "file:/c.ts", type := "file", content := some "z", locked := false }
      (by decide)).2 "z" rfl

/-! ### Claim C7 -/

/-- C7, counterexample: deactivating the locked chat object fails with no
state change, but the message is `Object is locked: <id>` with a capital
O, not the claimed `object is locked: <id>`. -/
theorem deactivate_locked_message_differs :
    deactivate (extInit "s1" "/w" none) "chat:s1" =
      (extInit "s1" "/w" none, { ok := false, message := "Object is locked: chat:s1" }) ∧
    "Object is locked: chat:s1" ≠ "object is locked: chat:s1" := by
  refine ⟨by decide, by decide⟩

/-- C7 (amended): for every locked object (the constructor marks exactly
the chat and system prompt objects locked), `deactivate` fails with
`Object is locked: <id>` and changes no state, so locked objects are never
removed from the active set by deactivation; and the constructor state
indeed holds locked chat and system prompt objects. -/
theorem deactivate_locked_contract (s : ExtState) (id : String) (obj : ObjState)
    (hobj : alookup id s.objects = some obj) (hlocked : obj.locked = true) :
    deactivate s id = (s, { ok := false, message := "Object is locked: " ++ id }) ∧
    (∀ sessionId root sp,
      alookup ("chat:" ++ sessionId) (extInit sessionId root sp).objects =
        some { id := "chat:" ++ sessionId, type := "chat", content := some "", locked := true } ∧
      alookup ("system_prompt:" ++ sessionId) (extInit sessionId root sp).objects =
        some { id := "system_prompt:" ++ sessionId, type := "system_prompt",
               content := some (sp.getD ""), locked := true }) := by
  constructor
  · simp [deactivate, hobj, hlocked]
  · intro sessionId root sp
    constructor
    · simp [extInit, alookup]
    · by_cases h : "chat:" ++ sessionId = "system_prompt:" ++ sessionId
      · exact absurd (congrArg (fun s => s.data.head?) h)
          (by simp [String.data_append])
      · simp [extInit, alookup, h]

/-- C7, witness: the locked contract applied to the chat object of a fresh
session. -/
theorem deactivate_locked_contract_witness :
    deactivate (extInit "s1" "/w" none) "chat:s1" =
      (extInit "s1" "/w" none, { ok := false, message := "Object is locked: chat:s1" }) := by
  exact (deactivate_locked_contract (extInit "s1" "/w" none) "chat:s1"
    { id := "chat:s1", type := "chat", content := some "", locked := true } (by decide) rfl).1

/-! ### Claim C8 -/

/-- C8 (confirmed): deactivating a known non-locked object in the active
set succeeds and removes exactly that id from the active set; the objects
map, metadata pool, seen set and store are untouched, so membership in the
metadata pool and in every index is unchanged. -/
theorem deactivate_removes_active_only (s : ExtState) (id : String) (obj : ObjState)
    (hobj : alookup id s.objects = some obj) (hnl : obj.locked = false)
    (_hact : id ∈ s.activeSet) :
    deactivate s id = ({ s with activeSet := delSet id s.activeSet },
                       { ok := true, message := "deactivated " ++ id }) ∧
    id ∉ delSet id s.activeSet ∧
    (∀ j, j ≠ id → (j ∈ delSet id s.activeSet ↔ j ∈ s.activeSet)) := by
  refine ⟨by simp [deactivate, hobj, hnl], not_mem_delSet_self id s.activeSet, ?_⟩
  intro j hj
  simp [mem_delSet, hj]

/-- C8, witness: deactivating a freshly read file from the state that read
it. -/
theorem deactivate_removes_active_only_witness :
    deactivate (read (extInit "s1" "/w" none) "/a.ts" "x").1 "file:/a.ts" =
      ({ (read (extInit "s1" "/w" none) "/a.ts" "x").1 with
          activeSet := delSet "file:/a.ts" (read (extInit "s1" "/w" none) "/a.ts" "x").1.activeSet },
       { ok := true, message := "deactivated file:/a.ts" }) ∧
    "file:/a.ts" ∉
      delSet "file:/a.ts" (read (extInit "s1" "/w" none) "/a.ts" "x").1.activeSet := by
  have h := deactivate_removes_active_only (read (extInit "s1" "/w" none) "/a.ts" "x").1
    "file:/a.ts" { id := "file:/a.ts", type := "file", content := some "x", locked := false }
    (by decide) rfl (by decide)
  exact ⟨h.1, h.2.1⟩

/-! ### Claim C5 -/

/-- C5 (confirmed): consuming a prefix of the harness message array and
then the full array (same array identity, length at least the cursor)
leaves the context manager in exactly the session state produced by
consuming the full array once: same turns, metadata pool, active content
and cursor. -/
theorem processMessages_of_take (s : CMState) (ref : Nat) (msgs : List HarnessMessage)
    (p : Nat) (href : s.lastRef = none ∨ s.lastRef = some ref)
    (hc : s.cursor ≤ p) (hp : p ≤ msgs.length) :
    processMessages (processMessages s ref (msgs.take p)) ref msgs =
      processMessages s ref msgs := by
  have hlen : (msgs.take p).length = p := by
    simp [List.length_take]
    omega
  have hdecomp : msgs.drop s.cursor = (msgs.take p).drop s.cursor ++ msgs.drop p := by
    conv_lhs => rw [← List.take_append_drop p msgs]
    rw [List.drop_append_of_le_length]
    rw [hlen]
    exact hc
  have hcond : ¬(s.lastRef.isSome = true ∧ (s.lastRef ≠ some ref ∨ msgs.length < s.cursor)) := by
    rcases href with h | h
    · simp [h]
    · simp [h]
      omega
  have hcondTake :
      ¬(s.lastRef.isSome = true ∧ (s.lastRef ≠ some ref ∨ (msgs.take p).length < s.cursor)) := by
    rcases href with h | h
    · simp [h]
    · simp [h, hlen]
      omega
  have hinner : processMessages s ref (msgs.take p) =
      { core := ((msgs.take p).drop s.cursor).foldl stepMessage s.core,
        cursor := p, lastRef := some ref } := by
    unfold processMessages
    rw [if_neg hcondTake, hlen]
  rw [hinner]
  unfold processMessages
  rw [if_neg (by simp; omega), if_neg hcond]
  simp only
  rw [hdecomp, List.foldl_append]

/-- C5, witness: a fresh manager consuming the first message and then the
whole two-message array ends in the state of consuming both at once. -/
theorem processMessages_of_take_witness :
    ((cmInit none none none).lastRef = none ∨
      (cmInit none none none).lastRef = some 7) ∧
    (cmInit none none none).cursor ≤ 1 ∧ 1 ≤ twoMsgs.length ∧
    processMessages (processMessages (cmInit none none none) 7 (twoMsgs.take 1)) 7 twoMsgs =
      processMessages (cmInit none none none) 7 twoMsgs := by
  exact ⟨Or.inl rfl, by decide, by decide,
    processMessages_of_take (cmInit none none none) 7 twoMsgs 1 (Or.inl rfl)
      (by decide) (by decide)⟩

/-! ### The auto tool-call window, characterised -/

theorem alookup_eq_none_iff {α : Type} (k : String) (l : List (String × α)) :
    alookup k l = none ↔ k ∉ l.map Prod.fst := by
  induction l with
  | nil => simp [alookup]
  | cons p t ih =>
    obtain ⟨pk, pv⟩ := p
    by_cases h : pk = k
    · simp [alookup, h]
    · simp [alookup, h, ih, Ne.symm h]

theorem alookup_windowStep_ne (keep pinned : List String) (ac : List (String × String))
    (p : String × ToolcallState) (id : String) (h : p.1 ≠ id) :
    alookup id (windowStep keep pinned ac p) = alookup id ac := by
  unfold windowStep
  by_cases h1 : p.1 ∈ keep
  · by_cases h2 : p.2.content ≠ "" <;> simp [h1, h2, alookup_setEntry_ne _ _ h]
  · by_cases h2 : p.1 ∈ pinned <;> simp [h1, h2, alookup_delEntry_ne _ h]

theorem windowFold_not_mem (keep pinned : List String)
    (entries : List (String × ToolcallState)) (ac : List (String × String)) (id : String)
    (h : id ∉ entries.map Prod.fst) :
    alookup id (entries.foldl (windowStep keep pinned) ac) = alookup id ac := by
  induction entries generalizing ac with
  | nil => rfl
  | cons p t ih =>
    simp only [List.map_cons, List.mem_cons] at h
    push_neg at h
    rw [List.foldl_cons, ih _ h.2, alookup_windowStep_ne _ _ _ _ _ (Ne.symm h.1)]

theorem windowFold_mem (keep pinned : List String)
    (entries : List (String × ToolcallState)) (ac : List (String × String))
    (id : String) (tc : ToolcallState)
    (hnd : (entries.map Prod.fst).Nodup) (h : alookup id entries = some tc) :
    alookup id (entries.foldl (windowStep keep pinned) ac) =
      (if id ∈ keep then (if tc.content ≠ "" then some tc.content else alookup id ac)
       else if id ∈ pinned then alookup id ac
       else none) := by
  induction entries generalizing ac with
  | nil => simp [alookup] at h
  | cons p t ih =>
    obtain ⟨pk, pv⟩ := p
    simp only [List.map_cons, List.nodup_cons] at hnd
    by_cases hpk : pk = id
    · subst hpk
      have hpv : pv = tc := by simpa [alookup] using h
      subst hpv
      rw [List.foldl_cons, windowFold_not_mem _ _ _ _ _ hnd.1]
      unfold windowStep
      by_cases h1 : pk ∈ keep
      · by_cases h2 : pv.content ≠ "" <;>
          simp [h1, h2, alookup_setEntry_self]
      · by_cases h2 : pk ∈ pinned <;>
          simp [h1, h2, alookup_delEntry_self]
    · rw [show alookup id ((pk, pv) :: t) = alookup id t by simp [alookup, hpk]] at h
      rw [List.foldl_cons, ih _ hnd.2 h,
        alookup_windowStep_ne _ _ _ _ _ hpk]

/-- `setEntry` keeps the key list duplicate-free. -/
theorem mem_map_fst_setEntry {α : Type} (k x : String) (v : α) (l : List (String × α)) :
    x ∈ (setEntry k v l).map Prod.fst ↔ x ∈ l.map Prod.fst ∨ x = k := by
  induction l with
  | nil => simp [setEntry]
  | cons p t ih =>
    obtain ⟨pk, pv⟩ := p
    by_cases h : pk = k
    · subst h
      simp [setEntry]
      tauto
    · simp [setEntry, h, ih]
      tauto

theorem nodup_setEntry {α : Type} (k : String) (v : α) (l : List (String × α))
    (h : (l.map Prod.fst).Nodup) : ((setEntry k v l).map Prod.fst).Nodup := by
  induction l with
  | nil => simp [setEntry]
  | cons p t ih =>
    obtain ⟨pk, pv⟩ := p
    simp only [List.map_cons, List.nodup_cons] at h
    by_cases hk : pk = k
    · subst hk
      simpa [setEntry] using h
    · rw [show setEntry k v ((pk, pv) :: t) = (pk, pv) :: setEntry k v t by simp [setEntry, hk]]
      simp only [List.map_cons, List.nodup_cons]
      refine ⟨?_, ih h.2⟩
      rw [mem_map_fst_setEntry]
      push_neg
      exact ⟨h.1, hk⟩

/-- The keep set only reads the chat turns and the two window options, so
the window pass itself does not change it. -/
theorem keepSetOf_applyWindow (s : CMCore) :
    keepSetOf (applyAutoToolcallWindow s) = keepSetOf s := rfl

/-- `cmActivate` touches `activeContent` only. -/
theorem cmActivate_shape (s : CMCore) (id : String) :
    ∃ ac, (cmActivate s id).1 = { s with activeContent := ac } := by
  unfold cmActivate
  cases h : alookup id s.toolcalls with
  | none => exact ⟨s.activeContent, rfl⟩
  | some tc =>
    by_cases hc : tc.content = ""
    · exact ⟨s.activeContent, by simp [hc]⟩
    · exact ⟨setEntry id tc.content s.activeContent, by simp [hc]⟩

/-- `cmDeactivate` touches `activeContent` only. -/
theorem cmDeactivate_shape (s : CMCore) (id : String) :
    ∃ ac, (cmDeactivate s id).1 = { s with activeContent := ac } := by
  unfold cmDeactivate
  by_cases h : id ∈ s.locked
  · exact ⟨s.activeContent, by simp [h]⟩
  · exact ⟨delEntry id s.activeContent, by simp [h]⟩

/-- The `toolcalls` map after absorbing a tool result: the new tool-call
state is written under its id, everything else untouched. -/
theorem absorb_toolcalls (s : CMCore) (u tool : String) (parts : List ContentPart)
    (isErr : Bool) (ts : Nat) :
    (absorbToolResult s u tool parts isErr ts).toolcalls =
      setEntry u
        { id := u, tool := tool, status := if isErr then "fail" else "ok",
          content := extractTextParts parts,
          turnIndex := if 0 < s.chatTurns.length then s.chatTurns.length - 1 else 0 }
        s.toolcalls := by
  unfold absorbToolResult
  obtain ⟨ac, hac⟩ := cmActivate_shape
    (if u ∈ s.metadataSeen then
      { s with
        chatTurns := modifyLast (fun t => { t with toolcall_ids := t.toolcall_ids ++ [u] })
          (if s.chatTurns.isEmpty then [emptyTurn ts] else s.chatTurns)
        toolcalls := setEntry u
          { id := u, tool := tool, status := if isErr then "fail" else "ok",
            content := extractTextParts parts,
            turnIndex := if 0 < s.chatTurns.length then s.chatTurns.length - 1 else 0 }
          s.toolcalls }
     else
      { s with
        chatTurns := modifyLast (fun t => { t with toolcall_ids := t.toolcall_ids ++ [u] })
          (if s.chatTurns.isEmpty then [emptyTurn ts] else s.chatTurns)
        toolcalls := setEntry u
          { id := u, tool := tool, status := if isErr then "fail" else "ok",
            content := extractTextParts parts,
            turnIndex := if 0 < s.chatTurns.length then s.chatTurns.length - 1 else 0 }
          s.toolcalls
        metadataSeen := s.metadataSeen ++ [u]
        metadataPool := s.metadataPool ++
          [{ id := u, tool := tool, status := if isErr then "fail" else "ok" }] }) u
  simp only at hac ⊢
  rw [hac]
  by_cases h : u ∈ s.metadataSeen <;> simp [h]

/-! ### Claim C4 -/

/-- C4, counterexample: after absorbing `t7`, the non-pinned tool-call
`t1` lies outside the claimed keep set (the union of the last five ids of
each of the last three turns) yet remains in the active content — the code
only truncates the final turn to its last five ids and keeps every id of
the earlier window turns. -/
theorem autoWindow_keeps_beyond_claimed_set :
    alookup "t1" windowFin.core.activeContent = some "c1" ∧
    "t1" ∉ specKeepSet windowFin.core ∧
    "t1" ∉ windowFin.core.pinned ∧
    (alookup "t1" windowFin.core.toolcalls).isSome = true := by
  refine ⟨by decide, by decide, by decide, by decide⟩

/-- C4 (amended): the keep set the code computes unions all tool-call ids
of every window turn except the final one, which contributes only its last
`recentToolcallsPerTurn` ids; the window pass then (re)inserts every kept
tool-call with non-empty content into the active content, removes every
non-pinned tool-call outside the keep set, and leaves everything else —
non-tool-call entries (files are never in this map), pinned tool-calls,
and kept tool-calls with empty content — unchanged. -/
theorem autoWindow_active_membership (s : CMCore)
    (hnd : (s.toolcalls.map Prod.fst).Nodup) (id : String) :
    (∀ tc, alookup id s.toolcalls = some tc →
      alookup id (applyAutoToolcallWindow s).activeContent =
        (if id ∈ keepSetOf s then
           (if tc.content ≠ "" then some tc.content else alookup id s.activeContent)
         else if id ∈ s.pinned then alookup id s.activeContent
         else none)) ∧
    (alookup id s.toolcalls = none →
      alookup id (applyAutoToolcallWindow s).activeContent = alookup id s.activeContent) := by
  constructor
  · intro tc h
    exact windowFold_mem (keepSetOf s) s.pinned s.toolcalls s.activeContent id tc hnd h
  · intro h
    exact windowFold_not_mem (keepSetOf s) s.pinned s.toolcalls s.activeContent id
      ((alookup_eq_none_iff id s.toolcalls).mp h)

/-- C4, witness: the characterisation applied to the counterexample state,
where the kept tool-call `t7` is re-asserted active. -/
theorem autoWindow_active_membership_witness :
    (windowFin.core.toolcalls.map Prod.fst).Nodup ∧
    alookup "t7" (applyAutoToolcallWindow windowFin.core).activeContent = some "c7" := by
  refine ⟨by decide, ?_⟩
  have h := (autoWindow_active_membership windowFin.core (by decide) "t7").1
    { id := "t7", tool := "bash", status := "ok", content := "c7", turnIndex := 1 } (by decide)
  rw [h]
  rw [if_pos (by decide), if_pos (by decide)]

/-! ### Claim C10 -/

/-- A kept tool-call with non-empty content is asserted into the active
content by the window pass, whatever the active content held before. -/
theorem applyWindow_lookup_keep (x : CMCore) (t1 : String) (tc : ToolcallState)
    (hnd : (x.toolcalls.map Prod.fst).Nodup)
    (h1 : alookup t1 x.toolcalls = some tc) (hc : tc.content ≠ "")
    (hkeep : t1 ∈ keepSetOf x) :
    alookup t1 (applyAutoToolcallWindow x).activeContent = some tc.content := by
  have h := windowFold_mem (keepSetOf x) x.pinned x.toolcalls x.activeContent t1 tc hnd h1
  rw [show (applyAutoToolcallWindow x).activeContent =
    x.toolcalls.foldl (windowStep (keepSetOf x) x.pinned) x.activeContent from rfl, h,
    if_pos hkeep, if_pos hc]

/-- C10 (confirmed): the auto-collapse pass after a new tool result
re-inserts every keep-window tool-call with non-empty content into the
active content map; in particular a tool-call that was explicitly
deactivated becomes active again when a later tool result arrives while it
is still inside the keep window. -/
theorem deactivated_toolcall_reactivated (s : CMCore) (t1 u tool : String)
    (parts : List ContentPart) (isErr : Bool) (ts : Nat) (tc : ToolcallState)
    (hnd : (s.toolcalls.map Prod.fst).Nodup)
    (h1 : alookup t1 s.toolcalls = some tc)
    (hc : tc.content ≠ "")
    (hne : u ≠ t1)
    (hkeep : t1 ∈ keepSetOf (stepMessage (cmDeactivate s t1).1
        (.toolResult u tool parts isErr ts))) :
    alookup t1 (stepMessage (cmDeactivate s t1).1
        (.toolResult u tool parts isErr ts)).activeContent = some tc.content := by
  obtain ⟨ac, hac⟩ := cmDeactivate_shape s t1
  rw [hac] at hkeep ⊢
  rw [show stepMessage { s with activeContent := ac } (.toolResult u tool parts isErr ts) =
    applyAutoToolcallWindow
      (absorbToolResult { s with activeContent := ac } u tool parts isErr ts) from rfl]
    at hkeep ⊢
  rw [keepSetOf_applyWindow] at hkeep
  apply applyWindow_lookup_keep
  · rw [absorb_toolcalls]
    exact nodup_setEntry _ _ _ hnd
  · rw [absorb_toolcalls, alookup_setEntry_ne _ _ hne]
    exact h1
  · exact hc
  · exact hkeep

/-- C10, witness: deactivating `t1` removes it from the active content;
absorbing the next tool result `t2` brings `t1` back. -/
theorem deactivated_toolcall_reactivated_witness :
    alookup "t1" (cmDeactivate reactBase "t1").1.activeContent = none ∧
    alookup "t1" (stepMessage (cmDeactivate reactBase "t1").1
      (.toolResult "t2" "bash" [.text "c2"] false 2)).activeContent = some "c1" := by
  refine ⟨by decide, ?_⟩
  exact deactivated_toolcall_reactivated reactBase "t1" "t2" "bash" [.text "c2"] false 2
    { id := "t1", tool := "bash", status := "ok", content := "c1", turnIndex := 0 }
    (by decide) (by decide) (by decide) (by decide) (by decide)

/-! ### Claim C9: order facts for the key sort -/

theorem charListLe_cons_iff (x y : Char) (xs ys : List Char) :
    charListLe (x :: xs) (y :: ys) = true ↔
      x < y ∨ (x = y ∧ charListLe xs ys = true) := by
  by_cases h1 : x < y
  · simp [charListLe, h1]
  · by_cases h2 : y < x
    · simp only [charListLe, if_neg h1, if_pos h2]
      constructor
      · intro h
        exact absurd h (by simp)
      · rintro (h | ⟨he, _⟩)
        · exact absurd h h1
        · exact absurd (he ▸ h2) (lt_irrefl x)
    · have hxy : x = y := le_antisymm (not_lt.mp h2) (not_lt.mp h1)
      simp [charListLe, h1, h2, hxy]

theorem charListLe_total (xs : List Char) : ∀ ys, charListLe xs ys = true ∨ charListLe ys xs = true := by
  induction xs with
  | nil => intro ys; left; rfl
  | cons x t ih =>
    intro ys
    cases ys with
    | nil => right; rfl
    | cons y u =>
      rcases lt_trichotomy x y with h | h | h
      · left
        rw [charListLe_cons_iff]
        exact Or.inl h
      · subst h
        rcases ih u with h | h
        · left
          rw [charListLe_cons_iff]
          exact Or.inr ⟨rfl, h⟩
        · right
          rw [charListLe_cons_iff]
          exact Or.inr ⟨rfl, h⟩
      · right
        rw [charListLe_cons_iff]
        exact Or.inl h

theorem charListLe_antisymm (xs : List Char) :
    ∀ ys, charListLe xs ys = true → charListLe ys xs = true → xs = ys := by
  induction xs with
  | nil =>
    intro ys h1 h2
    cases ys with
    | nil => rfl
    | cons y u => exact absurd h2 (by simp [charListLe])
  | cons x t ih =>
    intro ys h1 h2
    cases ys with
    | nil => exact absurd h1 (by simp [charListLe])
    | cons y u =>
      rw [charListLe_cons_iff] at h1 h2
      rcases h1 with h1 | ⟨he1, hr1⟩
      · rcases h2 with h2 | ⟨he2, _⟩
        · exact absurd h2 (lt_asymm h1)
        · exact absurd (he2 ▸ h1) (lt_irrefl y)
      · subst he1
        rcases h2 with h2 | ⟨_, hr2⟩
        · exact absurd h2 (lt_irrefl x)
        · rw [ih u hr1 hr2]

theorem charListLe_trans (xs : List Char) :
    ∀ ys zs, charListLe xs ys = true → charListLe ys zs = true → charListLe xs zs = true := by
  induction xs with
  | nil => intro ys zs _ _; rfl
  | cons x t ih =>
    intro ys zs h1 h2
    cases ys with
    | nil => exact absurd h1 (by simp [charListLe])
    | cons y u =>
      cases zs with
      | nil => exact absurd h2 (by simp [charListLe])
      | cons z w =>
        rw [charListLe_cons_iff] at h1 h2 ⊢
        rcases h1 with h1 | ⟨he1, hr1⟩
        · rcases h2 with h2 | ⟨he2, _⟩
          · exact Or.inl (lt_trans h1 h2)
          · exact Or.inl (he2 ▸ h1)
        · subst he1
          rcases h2 with h2 | ⟨he2, hr2⟩
          · exact Or.inl h2
          · exact Or.inr ⟨he2, ih u w hr1 hr2⟩

/-- Characters determine the string. -/
theorem stringExt {a b : String} (h : a.toList = b.toList) : a = b := by
  cases a
  cases b
  exact congrArg String.mk (by simpa using h)

theorem strLe_total (a b : String) : strLe a b = true ∨ strLe b a = true :=
  charListLe_total a.toList b.toList

theorem strLe_antisymm {a b : String} (h1 : strLe a b = true) (h2 : strLe b a = true) :
    a = b :=
  stringExt (charListLe_antisymm a.toList b.toList h1 h2)

theorem strLe_trans {a b c : String} (h1 : strLe a b = true) (h2 : strLe b c = true) :
    strLe a c = true :=
  charListLe_trans a.toList b.toList c.toList h1 h2

theorem mem_insertPair {x p : String × String} {l : List (String × String)} :
    x ∈ insertPair p l ↔ x = p ∨ x ∈ l := by
  induction l with
  | nil => simp [insertPair]
  | cons q t ih =>
    by_cases h : strLe p.1 q.1
    · simp [insertPair, h]
    · simp [insertPair, h, ih]
      tauto

theorem insertPair_perm (p : String × String) (l : List (String × String)) :
    (insertPair p l).Perm (p :: l) := by
  induction l with
  | nil => simp [insertPair]
  | cons q t ih =>
    by_cases h : strLe p.1 q.1
    · simp [insertPair, h]
    · simp only [insertPair, if_neg h]
      exact ((ih.cons q).trans (List.Perm.swap p q t))

theorem sortPairs_perm (l : List (String × String)) : (sortPairs l).Perm l := by
  induction l with
  | nil => simp [sortPairs]
  | cons p t ih =>
    exact (insertPair_perm p (sortPairs t)).trans (ih.cons p)

theorem insertPair_sorted (p : String × String) (l : List (String × String))
    (h : l.Pairwise keyLe) : (insertPair p l).Pairwise keyLe := by
  induction l with
  | nil => simp [insertPair, List.Pairwise]
  | cons q t ih =>
    rcases List.pairwise_cons.mp h with ⟨hq, ht⟩
    by_cases hle : strLe p.1 q.1
    · rw [show insertPair p (q :: t) = p :: q :: t by simp [insertPair, hle]]
      refine List.pairwise_cons.mpr ⟨?_, h⟩
      intro x hx
      rcases List.mem_cons.mp hx with hx | hx
      · subst hx
        exact hle
      · exact strLe_trans hle (hq x hx)
    · rw [show insertPair p (q :: t) = q :: insertPair p t by simp [insertPair, hle]]
      refine List.pairwise_cons.mpr ⟨?_, ih ht⟩
      intro x hx
      rcases mem_insertPair.mp hx with hx | hx
      · subst hx
        rcases strLe_total x.1 q.1 with hh | hh
        · exact absurd hh hle
        · exact hh
      · exact hq x hx

theorem sortPairs_sorted (l : List (String × String)) : (sortPairs l).Pairwise keyLe := by
  induction l with
  | nil => simp [sortPairs, List.Pairwise]
  | cons p t ih => exact insertPair_sorted p (sortPairs t) ih

/-! ### Claim C9: object fields, lookups and the sorted render -/

theorem objParts_eq : (o : JvalObj) →
    objParts o = (entriesOf o).map (fun p => (p.1, renderField p.1 p.2))
  | .nil => rfl
  | .cons k v t => by simp [objParts, entriesOf, renderField, objParts_eq t]
termination_by structural o => o

theorem objParts_keys : (o : JvalObj) → (objParts o).map Prod.fst = keysOf o
  | .nil => rfl
  | .cons k v t => by simp [objParts, keysOf, objParts_keys t]
termination_by structural o => o

theorem keysOf_eq_entries : (o : JvalObj) → keysOf o = (entriesOf o).map Prod.fst
  | .nil => rfl
  | .cons k v t => by simp [keysOf, entriesOf, keysOf_eq_entries t]
termination_by structural o => o

theorem jlookup_eq_alookup (k : String) : (o : JvalObj) →
    jlookup k o = alookup k (entriesOf o)
  | .nil => rfl
  | .cons k' v t => by simp [jlookup, entriesOf, alookup, jlookup_eq_alookup k t]
termination_by structural o => o

theorem mem_alookup_nodup {α : Type} {k : String} {v : α} {l : List (String × α)}
    (hnd : (l.map Prod.fst).Nodup) (h : (k, v) ∈ l) : alookup k l = some v := by
  induction l with
  | nil => simp at h
  | cons p t ih =>
    obtain ⟨pk, pv⟩ := p
    simp only [List.map_cons, List.nodup_cons] at hnd
    rcases List.mem_cons.mp h with h | h
    · cases h
      simp [alookup]
    · have hk : pk ≠ k := by
        intro he
        exact hnd.1 (he ▸ (List.mem_map.mpr ⟨(k, v), h, rfl⟩))
      simp [alookup, hk, ih hnd.2 h]

/-- Two pair lists with the same duplicate-free key sequence and
key-determined values agree. -/
theorem eq_of_keys_eq_of_values_eq (m1 : List (String × String)) :
    ∀ m2 : List (String × String),
      m1.map Prod.fst = m2.map Prod.fst →
      (m1.map Prod.fst).Nodup →
      (∀ k x y, (k, x) ∈ m1 → (k, y) ∈ m2 → x = y) →
      m1 = m2 := by
  induction m1 with
  | nil =>
    intro m2 hk _ _
    cases m2 with
    | nil => rfl
    | cons q t => simp at hk
  | cons p t1 ih =>
    intro m2 hk hnd hv
    cases m2 with
    | nil => simp at hk
    | cons q t2 =>
      obtain ⟨pk, px⟩ := p
      obtain ⟨qk, qy⟩ := q
      simp only [List.map_cons, List.cons.injEq] at hk
      simp only [List.map_cons, List.nodup_cons] at hnd
      have hkk : pk = qk := hk.1
      subst hkk
      have hxy : px = qy := hv pk px qy (List.mem_cons_self _ _)
        (List.mem_cons_self _ _)
      subst hxy
      rw [ih t2 hk.2 hnd.2 (fun k x y hx hy => hv k x y (List.mem_cons_of_mem _ hx)
        (List.mem_cons_of_mem _ hy))]

/-- Objects with permuted, duplicate-free keys and pointwise equal rendered
values produce the same sorted render. -/
theorem sortPairs_objParts_eq {a b : JvalObj}
    (hnd : (keysOf a).Nodup) (hperm : (keysOf a).Perm (keysOf b))
    (hrender : ∀ k v1 v2, jlookup k a = some v1 → jlookup k b = some v2 →
      stableStringify v1 = stableStringify v2) :
    sortPairs (objParts a) = sortPairs (objParts b) := by
  haveI : IsAntisymm String (fun a b => strLe a b = true) :=
    ⟨fun _ _ h1 h2 => strLe_antisymm h1 h2⟩
  have pa := sortPairs_perm (objParts a)
  have pb := sortPairs_perm (objParts b)
  have kperm1 : ((sortPairs (objParts a)).map Prod.fst).Perm (keysOf a) := by
    rw [← objParts_keys]
    exact pa.map Prod.fst
  have kperm2 : ((sortPairs (objParts b)).map Prod.fst).Perm (keysOf b) := by
    rw [← objParts_keys]
    exact pb.map Prod.fst
  have kchain : ((sortPairs (objParts a)).map Prod.fst).Perm
      ((sortPairs (objParts b)).map Prod.fst) :=
    (kperm1.trans hperm).trans kperm2.symm
  have s1 : ((sortPairs (objParts a)).map Prod.fst).Pairwise (fun x y => strLe x y = true) :=
    List.pairwise_map.mpr (sortPairs_sorted (objParts a))
  have s2 : ((sortPairs (objParts b)).map Prod.fst).Pairwise (fun x y => strLe x y = true) :=
    List.pairwise_map.mpr (sortPairs_sorted (objParts b))
  have hkeys : (sortPairs (objParts a)).map Prod.fst = (sortPairs (objParts b)).map Prod.fst :=
    List.eq_of_perm_of_sorted kchain s1 s2
  have hnd1 : ((sortPairs (objParts a)).map Prod.fst).Nodup := kperm1.symm.nodup hnd
  have hndb : (keysOf b).Nodup := hperm.nodup hnd
  apply eq_of_keys_eq_of_values_eq _ _ hkeys hnd1
  intro k x y hx hy
  have hxa : (k, x) ∈ objParts a := pa.mem_iff.mp hx
  have hyb : (k, y) ∈ objParts b := pb.mem_iff.mp hy
  rw [objParts_eq] at hxa hyb
  obtain ⟨⟨k1, v1⟩, hmem1, heq1⟩ := List.mem_map.mp hxa
  obtain ⟨⟨k2, v2⟩, hmem2, heq2⟩ := List.mem_map.mp hyb
  have hk1 : k1 = k := congrArg Prod.fst heq1
  have hk2 : k2 = k := congrArg Prod.fst heq2
  have hl1 : jlookup k a = some v1 := by
    rw [jlookup_eq_alookup]
    exact mem_alookup_nodup (by rw [← keysOf_eq_entries]; exact hnd) (hk1 ▸ hmem1)
  have hl2 : jlookup k b = some v2 := by
    rw [jlookup_eq_alookup]
    exact mem_alookup_nodup (by rw [← keysOf_eq_entries]; exact hndb) (hk2 ▸ hmem2)
  have hx' : x = renderField k1 v1 := (congrArg Prod.snd heq1).symm
  have hy' : y = renderField k2 v2 := (congrArg Prod.snd heq2).symm
  rw [hx', hy', hk1, hk2, renderField, renderField, hrender k v1 v2 hl1 hl2]

mutual
/-- `stableStringify` maps `JEquiv`-equal values to the same string; the
recursion follows the structure of the first value. -/
theorem jequiv_stringify : (v : Jval) → ∀ w, JEquiv v w →
    stableStringify v = stableStringify w
  | .jnull => fun w h => by cases h; rfl
  | .jbool b => fun w h => by cases h; rfl
  | .jnum n => fun w h => by cases h; rfl
  | .jstr s => fun w h => by cases h; rfl
  | .jarr xs => fun w h => by
    cases h with
    | jarr hl =>
      simp only [stableStringify]
      rw [jequivl_parts xs _ hl]
  | .jobj a => fun w h => by
    cases h with
    | jobj hnd hperm hlook =>
      simp only [stableStringify]
      rw [sortPairs_objParts_eq hnd hperm
        (fun k v1 v2 e1 e2 => jlookup_equiv_stringify a k v1 e1 v2 (hlook k v1 v2 e1 e2))]
termination_by structural v => v

/-- Every value stored in an object respects the congruence. -/
theorem jlookup_equiv_stringify : (o : JvalObj) → ∀ k v1, jlookup k o = some v1 →
    ∀ v2, JEquiv v1 v2 → stableStringify v1 = stableStringify v2
  | .nil => fun k v1 e => by simp [jlookup] at e
  | .cons k' v t => fun k v1 e v2 hv => by
    by_cases hk : k' = k
    · have hvv : v = v1 := by simpa [jlookup, hk] using e
      subst hvv
      exact jequiv_stringify v v2 hv
    · exact jlookup_equiv_stringify t k v1 (by simpa [jlookup, hk] using e) v2 hv
termination_by structural o => o

/-- `arrParts` maps `JEquivL`-related lists to the same string list. -/
theorem jequivl_parts : (xs : JvalList) → ∀ ys, JEquivL xs ys → arrParts xs = arrParts ys
  | .nil => fun ys h => by cases h; rfl
  | .cons x t => fun ys h => by
    cases h with
    | cons hv ht =>
      simp only [arrParts]
      rw [jequiv_stringify x _ hv, jequivl_parts t _ ht]
termination_by structural xs => xs
end

/-! ### Claim C9: the serialisation emits no whitespace of its own -/

theorem toList_append (a b : String) : (a ++ b).toList = a.toList ++ b.toList :=
  String.data_append a b

theorem digitChar_not_ws (n : Nat) : (Nat.digitChar n).isWhitespace = false := by
  match n with
  | 0 | 1 | 2 | 3 | 4 | 5 | 6 | 7 | 8 | 9 | 10 | 11 | 12 | 13 | 14 | 15 => decide
  | m + 16 =>
    unfold Nat.digitChar
    repeat rw [if_neg (by omega)]
    decide

theorem toDigitsCore_ws : ∀ (fuel n : Nat) (ds : List Char),
    (∀ c ∈ ds, c.isWhitespace = false) →
    ∀ c ∈ Nat.toDigitsCore 10 fuel n ds, c.isWhitespace = false := by
  intro fuel
  induction fuel with
  | zero =>
    intro n ds hds c hc
    rw [show Nat.toDigitsCore 10 0 n ds = ds from rfl] at hc
    exact hds c hc
  | succ f ih =>
    intro n ds hds c hc
    rw [show Nat.toDigitsCore 10 (f + 1) n ds =
      (if n / 10 = 0 then Nat.digitChar (n % 10) :: ds
       else Nat.toDigitsCore 10 f (n / 10) (Nat.digitChar (n % 10) :: ds)) from rfl] at hc
    have hcons : ∀ d ∈ Nat.digitChar (n % 10) :: ds, d.isWhitespace = false := by
      intro d hd
      rcases List.mem_cons.mp hd with hd | hd
      · rw [hd]
        exact digitChar_not_ws _
      · exact hds d hd
    by_cases h : n / 10 = 0
    · rw [if_pos h] at hc
      exact hcons c hc
    · rw [if_neg h] at hc
      exact ih (n / 10) (Nat.digitChar (n % 10) :: ds) hcons c hc

theorem natRepr_ws (n : Nat) : ∀ c ∈ (Nat.repr n).toList, c.isWhitespace = false := by
  intro c hc
  rw [show (Nat.repr n).toList = Nat.toDigitsCore 10 (n + 1) n [] from rfl] at hc
  exact toDigitsCore_ws (n + 1) n [] (by simp) c hc

theorem intToString_ws (i : Int) : ∀ c ∈ (toString i).toList, c.isWhitespace = false := by
  cases i with
  | ofNat m => exact natRepr_ws m
  | negSucc m =>
    intro c hc
    rw [show toString (Int.negSucc m) = "-" ++ Nat.repr (m + 1) from rfl,
      toList_append] at hc
    rcases List.mem_append.mp hc with hc | hc
    · rcases List.mem_singleton.mp hc with rfl
      decide
    · exact natRepr_ws (m + 1) c hc

theorem hexDigit_not_ws (n : Nat) (h : n < 16) : (hexDigit n).isWhitespace = false := by
  interval_cases n <;> decide

theorem jsonEscapeChar_ws (c : Char) (hc : c.isWhitespace = false) :
    ∀ d ∈ (jsonEscapeChar c).toList, d.isWhitespace = false := by
  intro d hd
  unfold jsonEscapeChar at hd
  split_ifs at hd with h1 h2 h3 h4 h5 h6 h7 h8
  · fin_cases hd <;> decide
  · fin_cases hd <;> decide
  · exact absurd hc (by rw [h3]; decide)
  · exact absurd hc (by rw [h4]; decide)
  · exact absurd hc (by rw [h5]; decide)
  · fin_cases hd <;> decide
  · fin_cases hd <;> decide
  · rw [toList_append] at hd
    rcases List.mem_append.mp hd with hd | hd
    · fin_cases hd <;> decide
    · rcases List.mem_cons.mp hd with rfl | hd
      · exact hexDigit_not_ws _ (by omega)
      · rcases List.mem_cons.mp hd with rfl | hd
        · exact hexDigit_not_ws _ (by omega)
        · simp at hd
  · rcases List.mem_singleton.mp hd with rfl
    exact hc

theorem joinSep_ws (sep : String) (hsep : ∀ c ∈ sep.toList, c.isWhitespace = false) :
    (l : List String) → (∀ x ∈ l, ∀ c ∈ x.toList, c.isWhitespace = false) →
    ∀ c ∈ (joinSep sep l).toList, c.isWhitespace = false
  | [] => by
    intro _ c hc
    simp [joinSep] at hc
  | [x] => by
    intro hl c hc
    exact hl x (by simp) c hc
  | x :: y :: t => by
    intro hl c hc
    rw [show joinSep sep (x :: y :: t) = x ++ sep ++ joinSep sep (y :: t) from rfl,
      toList_append, toList_append] at hc
    rcases List.mem_append.mp hc with hc | hc
    · rcases List.mem_append.mp hc with hc | hc
      · exact hl x (by simp) c hc
      · exact hsep c hc
    · refine joinSep_ws sep hsep (y :: t) ?_ c hc
      intro z hz
      exact hl z (List.mem_cons_of_mem x hz)

theorem jsonQuote_ws (s : String) (hs : ∀ c ∈ s.toList, c.isWhitespace = false) :
    ∀ c ∈ (jsonQuote s).toList, c.isWhitespace = false := by
  intro c hc
  rw [jsonQuote, toList_append, toList_append] at hc
  rcases List.mem_append.mp hc with hc | hc
  · rcases List.mem_append.mp hc with hc | hc
    · rcases List.mem_singleton.mp hc with rfl
      decide
    · refine joinSep_ws "" (by simp) (s.toList.map jsonEscapeChar) ?_ c hc
      intro x hx
      obtain ⟨d, hd, rfl⟩ := List.mem_map.mp hx
      exact jsonEscapeChar_ws d (hs d hd)
  · rcases List.mem_singleton.mp hc with rfl
    decide

mutual
/-- When no embedded string carries whitespace, neither does the
serialisation: every separator the code emits is whitespace-free. -/
theorem noWS_stringify : (v : Jval) → noWS v = true →
    ∀ c ∈ (stableStringify v).toList, c.isWhitespace = false
  | .jnull => fun _ => by decide
  | .jbool b => fun _ => by cases b <;> decide
  | .jnum n => fun _ => intToString_ws n
  | .jstr s => fun h => by
    refine jsonQuote_ws s ?_
    intro c hc
    have h' : (s.toList.all fun c => !c.isWhitespace) = true := h
    have := List.all_eq_true.mp h' c hc
    simpa using this
  | .jarr xs => fun h c hc => by
    rw [show stableStringify (.jarr xs) = "[" ++ joinSep "," (arrParts xs) ++ "]" from rfl,
      toList_append, toList_append] at hc
    rcases List.mem_append.mp hc with hc | hc
    · rcases List.mem_append.mp hc with hc | hc
      · rcases List.mem_singleton.mp hc with rfl
        decide
      · exact joinSep_ws "," (by decide) (arrParts xs) (noWSL_parts xs h) c hc
    · rcases List.mem_singleton.mp hc with rfl
      decide
  | .jobj kvs => fun h c hc => by
    rw [show stableStringify (.jobj kvs) =
      "\x7b" ++ joinSep "," ((sortPairs (objParts kvs)).map Prod.snd) ++ "\x7d" from rfl,
      toList_append, toList_append] at hc
    rcases List.mem_append.mp hc with hc | hc
    · rcases List.mem_append.mp hc with hc | hc
      · rcases List.mem_singleton.mp hc with rfl
        decide
      · refine joinSep_ws "," (by decide) _ ?_ c hc
        intro x hx
        obtain ⟨p, hp, rfl⟩ := List.mem_map.mp hx
        exact noWSO_parts kvs h p ((sortPairs_perm (objParts kvs)).mem_iff.mp hp)
    · rcases List.mem_singleton.mp hc with rfl
      decide
termination_by structural v => v

/-- Companion of `noWS_stringify` for array elements. -/
theorem noWSL_parts : (xs : JvalList) → noWSL xs = true →
    ∀ s ∈ arrParts xs, ∀ c ∈ s.toList, c.isWhitespace = false
  | .nil => by
    intro _ s hs
    simp [arrParts] at hs
  | .cons v t => fun h s hs => by
    have h' : (noWS v && noWSL t) = true := h
    rw [Bool.and_eq_true] at h'
    rcases List.mem_cons.mp hs with rfl | hs
    · exact noWS_stringify v h'.1
    · exact noWSL_parts t h'.2 s hs
termination_by structural xs => xs

/-- Companion of `noWS_stringify` for rendered object fields. -/
theorem noWSO_parts : (o : JvalObj) → noWSO o = true →
    ∀ p ∈ objParts o, ∀ c ∈ p.2.toList, c.isWhitespace = false
  | .nil => by
    intro _ p hp
    simp [objParts] at hp
  | .cons k v t => fun h p hp => by
    have h' : ((k.toList.all fun c => !c.isWhitespace) && noWS v && noWSO t) = true := h
    rw [Bool.and_eq_true, Bool.and_eq_true] at h'
    rcases List.mem_cons.mp hp with rfl | hp
    · intro c hc
      rw [show (k, jsonQuote k ++ ":" ++ stableStringify v).2 =
        jsonQuote k ++ ":" ++ stableStringify v from rfl, toList_append, toList_append] at hc
      rcases List.mem_append.mp hc with hc | hc
      · rcases List.mem_append.mp hc with hc | hc
        · refine jsonQuote_ws k ?_ c hc
          intro d hd
          have := List.all_eq_true.mp h'.1.1 d hd
          simpa using this
        · rcases List.mem_singleton.mp hc with rfl
          decide
      · exact noWS_stringify v h'.1.2 c hc
    · exact noWSO_parts t h'.2 p hp
termination_by structural o => o
end

/-! ### Claim C9 -/

/-- C9 (confirmed): the canonical serialisation is deterministic — values
equal up to object-key reordering (with duplicate-free keys) serialise to
the same string at every depth, array order is preserved in the output,
and the serialiser emits no whitespace of its own (whitespace can only
come from embedded strings or keys). -/
theorem stableStringify_canonical :
    (∀ v w, JEquiv v w → stableStringify v = stableStringify w) ∧
    (∀ (x : Jval) (t : JvalList),
      stableStringify (.jarr (.cons x t)) =
        "[" ++ joinSep "," (stableStringify x :: arrParts t) ++ "]") ∧
    (∀ v, noWS v = true → ∀ c ∈ (stableStringify v).toList, c.isWhitespace = false) := by
  refine ⟨fun v w h => jequiv_stringify v w h, fun x t => rfl, noWS_stringify⟩

/-- C9, witness: the two insertion orders serialise identically and the
output contains no whitespace. -/
theorem stableStringify_canonical_witness :
    stableStringify exObjA = stableStringify exObjB ∧
    noWS exObjA = true ∧
    (∀ c ∈ (stableStringify exObjA).toList, c.isWhitespace = false) := by
  have hequiv : JEquiv exObjA exObjB := by
    apply JEquiv.jobj
    · decide
    · exact List.Perm.swap "a" "b" []
    · intro k v1 v2 h1 h2
      by_cases hb : "b" = k
      · rw [show v1 = .jnum 1 by simpa [exObjA, jlookup, hb] using h1.symm,
          show v2 = .jnum 1 by
            have : ¬("a" = k) := by
              rw [← hb]
              decide
            simpa [exObjB, jlookup, hb, this] using h2.symm]
        exact JEquiv.jnum 1
      · by_cases ha : "a" = k
        · rw [show v1 = .jstr "x" by simpa [exObjA, jlookup, hb, ha] using h1.symm,
            show v2 = .jstr "x" by simpa [exObjB, jlookup, ha] using h2.symm]
          exact JEquiv.jstr "x"
        · exact absurd h1 (by simp [exObjA, jlookup, hb, ha])
  exact ⟨stableStringify_canonical.1 exObjA exObjB hequiv, by decide,
    stableStringify_canonical.2.2 exObjA (by decide)⟩

end PiMemory
